import Mathlib

/-!
Verification of the block-geometry precomputation core of the astcenc codec
(`astcenc_block_sizes.cpp`, `astcenc_partition_tables.cpp`).

The C code is shallowly embedded: machine integers become `Nat`/`Int` with
explicit `% 2^w` where overflow can occur, array writes become list/function
constructions, and the float channels (which are exact multiples of 1/16 in
the source) are tracked through their integer numerators.
-/

set_option maxRecDepth 100000

namespace Astc

/-! Constants from the astcenc headers (spec §6, bit-exact). -/

def TEXEL_WEIGHT_SUM : Nat := 16

def MAX_WEIGHTS_PER_BLOCK : Nat := 64

def MIN_WEIGHT_BITS_PER_BLOCK : Nat := 24

def MAX_WEIGHT_BITS_PER_BLOCK : Nat := 96

def MAX_WEIGHT_MODES : Nat := 2048

/-- Modelled from the spec: `get_ise_sequence_bitcount` is consumed by this
repository as an external pure function ("bits needed for `n` values at quant
level `q`", spec §2 C1 and §6).  Its implementation file is not part of the
two sources here, so we model the ASTC integer-sequence-encoding sizes: each
of the twelve weight quant levels 0..11 (QUANT_2 .. QUANT_32) encodes a value
with some plain bits plus optionally a trit (5 values share 8 bits) or a
quint (3 values share 7 bits).  The triple is (bits, trits, quints). -/
def iseBTQ : Nat → Nat × Nat × Nat
  | 0 => (1, 0, 0)
  | 1 => (0, 1, 0)
  | 2 => (2, 0, 0)
  | 3 => (0, 0, 1)
  | 4 => (1, 1, 0)
  | 5 => (3, 0, 0)
  | 6 => (1, 0, 1)
  | 7 => (2, 1, 0)
  | 8 => (4, 0, 0)
  | 9 => (2, 0, 1)
  | 10 => (3, 1, 0)
  | _ => (5, 0, 0)

/-- Modelled from the spec: bit count for an ISE sequence of `count` values at
quant level `q` (see `iseBTQ`). -/
def get_ise_sequence_bitcount (count q : Nat) : Nat :=
  let btq := iseBTQ q
  count * btq.1
    + (if btq.2.1 = 1 then (8 * count + 4) / 5 else 0)
    + (if btq.2.2 = 1 then (7 * count + 2) / 3 else 0)

/-! Block-mode decoding (`decode_block_mode_2d` / `decode_block_mode_3d`). -/

structure Mode2D where
  valid : Bool
  x_weights : Nat
  y_weights : Nat
  is_dual_plane : Bool
  quant_mode : Nat
deriving DecidableEq

structure Mode3D where
  valid : Bool
  x_weights : Nat
  y_weights : Nat
  z_weights : Nat
  is_dual_plane : Bool
  quant_mode : Nat
deriving DecidableEq

/-- Shared tail of the two decoders: weight count, quant mode and the ISE
bit-count envelope check.  On every path reaching this tail the accumulated
`base_quant_mode` is at least 2, so the `Nat` subtraction below is exact. -/
def finishMode (base H D : Nat) (wcount : Nat) : Bool × Nat :=
  let quant_mode := base - 2 + 6 * H
  let weight_count := wcount * (D + 1)
  let weight_bits := get_ise_sequence_bitcount weight_count quant_mode
  (decide (weight_count ≤ MAX_WEIGHTS_PER_BLOCK)
     && decide (MIN_WEIGHT_BITS_PER_BLOCK ≤ weight_bits)
     && decide (weight_bits ≤ MAX_WEIGHT_BITS_PER_BLOCK),
   quant_mode)

/-- Embedding of `decode_block_mode_2d`.  On the two early `return false`
paths the C function leaves `quant_mode` unassigned and `x/y_weights` zero;
we return zeros there. -/
def decode_block_mode_2d (block_mode : Nat) : Mode2D :=
  let base0 := (block_mode >>> 4) &&& 1
  let H := (block_mode >>> 9) &&& 1
  let D := (block_mode >>> 10) &&& 1
  let A := (block_mode >>> 5) &&& 0x3
  if block_mode &&& 3 ≠ 0 then
    let base := base0 ||| ((block_mode &&& 3) <<< 1)
    let B := (block_mode >>> 7) &&& 3
    let xy : Nat × Nat :=
      match (block_mode >>> 2) &&& 3 with
      | 0 => (B + 4, A + 2)
      | 1 => (B + 8, A + 2)
      | 2 => (A + 2, B + 8)
      | _ =>
        let B2 := B &&& 1
        if block_mode &&& 0x100 ≠ 0 then (B2 + 2, A + 2) else (A + 2, B2 + 6)
    let fin := finishMode base H D (xy.1 * xy.2)
    ⟨fin.1, xy.1, xy.2, D ≠ 0, fin.2⟩
  else
    let base := base0 ||| (((block_mode >>> 2) &&& 3) <<< 1)
    if (block_mode >>> 2) &&& 3 = 0 then ⟨false, 0, 0, false, 0⟩
    else
      let B := (block_mode >>> 9) &&& 3
      match (block_mode >>> 7) &&& 3 with
      | 0 =>
        let fin := finishMode base H D (12 * (A + 2))
        ⟨fin.1, 12, A + 2, D ≠ 0, fin.2⟩
      | 1 =>
        let fin := finishMode base H D ((A + 2) * 12)
        ⟨fin.1, A + 2, 12, D ≠ 0, fin.2⟩
      | 2 =>
        let fin := finishMode base 0 0 ((A + 6) * (B + 6))
        ⟨fin.1, A + 6, B + 6, false, fin.2⟩
      | _ =>
        match (block_mode >>> 5) &&& 3 with
        | 0 =>
          let fin := finishMode base H D (6 * 10)
          ⟨fin.1, 6, 10, D ≠ 0, fin.2⟩
        | 1 =>
          let fin := finishMode base H D (10 * 6)
          ⟨fin.1, 10, 6, D ≠ 0, fin.2⟩
        | _ => ⟨false, 0, 0, false, 0⟩

/-- Embedding of `decode_block_mode_3d`. -/
def decode_block_mode_3d (block_mode : Nat) : Mode3D :=
  let base0 := (block_mode >>> 4) &&& 1
  let H := (block_mode >>> 9) &&& 1
  let D := (block_mode >>> 10) &&& 1
  let A := (block_mode >>> 5) &&& 0x3
  if block_mode &&& 3 ≠ 0 then
    let base := base0 ||| ((block_mode &&& 3) <<< 1)
    let B := (block_mode >>> 7) &&& 3
    let C := (block_mode >>> 2) &&& 0x3
    let fin := finishMode base H D ((A + 2) * (B + 2) * (C + 2))
    ⟨fin.1, A + 2, B + 2, C + 2, D ≠ 0, fin.2⟩
  else
    let base := base0 ||| (((block_mode >>> 2) &&& 3) <<< 1)
    if (block_mode >>> 2) &&& 3 = 0 then ⟨false, 0, 0, 0, false, 0⟩
    else
      let B := (block_mode >>> 9) &&& 3
      match (block_mode >>> 7) &&& 3 with
      | 0 =>
        let fin := finishMode base 0 0 (6 * (B + 2) * (A + 2))
        ⟨fin.1, 6, B + 2, A + 2, false, fin.2⟩
      | 1 =>
        let fin := finishMode base 0 0 ((A + 2) * 6 * (B + 2))
        ⟨fin.1, A + 2, 6, B + 2, false, fin.2⟩
      | 2 =>
        let fin := finishMode base 0 0 ((A + 2) * (B + 2) * 6)
        ⟨fin.1, A + 2, B + 2, 6, false, fin.2⟩
      | _ =>
        match (block_mode >>> 5) &&& 3 with
        | 0 =>
          let fin := finishMode base H D (6 * 2 * 2)
          ⟨fin.1, 6, 2, 2, D ≠ 0, fin.2⟩
        | 1 =>
          let fin := finishMode base H D (2 * 6 * 2)
          ⟨fin.1, 2, 6, 2, D ≠ 0, fin.2⟩
        | 2 =>
          let fin := finishMode base H D (2 * 2 * 6)
          ⟨fin.1, 2, 2, 6, D ≠ 0, fin.2⟩
        | _ => ⟨false, 0, 0, 0, false, 0⟩

/-! The 3D simplex-interpolation case selector (`cas` in
`initialize_decimation_table_3d`). -/

/-- The 3-bit simplex case index `((fs>ft)<<2) + ((ft>fp)<<1) + (fs>fp)`. -/
def simplexCase (fs ft fp : Int) : Nat :=
  ((if fs > ft then 1 else 0) <<< 2) + ((if ft > fp then 1 else 0) <<< 1)
    + (if fs > fp then 1 else 0)

/-! Decimation tables.  Both builders accumulate, for every texel, a list of
up to four (grid corner index, integer blend weight) pairs, drop the
zero-weight pairs, and then store the per-texel and per-weight views of this
incidence structure.  We embed the per-texel pair computation as a corner
function `Nat → List (Nat × Int)` (texel index to its four pairs in slot
order) and define both views generically over it. -/

/-- C++ `uint8_t` conversion of an `int` value: reduction mod 2^8. -/
def storeU8 (w : Int) : Nat := (w % 256).toNat

/-- The fixed-point grid coordinate
`(((1024 + t/2)/(t-1)) * v * (w-1) + 32) >> 6` (4.4 fixed point). -/
def dgridCoord (t w v : Nat) : Nat :=
  ((1024 + t / 2) / (t - 1) * v * (w - 1) + 32) >>> 6

/-- The four (qweight, weight) pairs computed for texel (x, y) by
`initialize_decimation_table_2d`, in slot order 0..3. -/
def texelCorners2d (tx ty wx wy x y : Nat) : List (Nat × Int) :=
  let x_weight := dgridCoord tx wx x
  let y_weight := dgridCoord ty wy y
  let xf := x_weight &&& 0xF
  let yf := y_weight &&& 0xF
  let xi := x_weight >>> 4
  let yi := y_weight >>> 4
  let q0 := xi + yi * wx
  let w3 : Int := ((xf * yf + 8) >>> 4 : Nat)
  let w1 : Int := (xf : Int) - w3
  let w2 : Int := (yf : Int) - w3
  let w0 : Int := 16 - (xf : Int) - (yf : Int) + w3
  [(q0, w0), (q0 + 1, w1), (q0 + wx, w2), (q0 + wx + 1, w3)]

/-- Corner function for a 2D block: texel index `i` is `(x, y)` with
`x = i % tx`, `y = i / tx` (the builder scans y outer, x inner, with
`texel = y * x_texels + x`). -/
def corners2d (tx ty wx wy : Nat) : Nat → List (Nat × Int) :=
  fun i => texelCorners2d tx ty wx wy (i % tx) (i / tx)

/-- The per-case simplex interpolation data of
`initialize_decimation_table_3d`: neighbor strides s1, s2 and the four
weights, as assigned by the `switch (cas)`. -/
structure SimplexSel where
  s1 : Nat
  s2 : Nat
  w0 : Int
  w1 : Int
  w2 : Int
  w3 : Int
deriving DecidableEq

def simplexSelect (cas N NM : Nat) (fs ft fp : Int) : SimplexSel :=
  match cas with
  | 7 => ⟨1, N, 16 - fs, fs - ft, ft - fp, fp⟩
  | 3 => ⟨N, 1, 16 - ft, ft - fs, fs - fp, fp⟩
  | 5 => ⟨1, NM, 16 - fs, fs - fp, fp - ft, ft⟩
  | 4 => ⟨NM, 1, 16 - fp, fp - fs, fs - ft, ft⟩
  | 2 => ⟨N, NM, 16 - ft, ft - fp, fp - fs, fs⟩
  | 0 => ⟨NM, N, 16 - fp, fp - ft, ft - fs, fs⟩
  | _ => ⟨NM, N, 16 - fp, fp - ft, ft - fs, fs⟩

/-- The four (qweight, weight) pairs computed for texel (x, y, z) by
`initialize_decimation_table_3d`, in slot order 0..3.  `qweight[3]` is
written independently of the strides, as in the source. -/
def texelCorners3d (tx ty tz wx wy wz x y z : Nat) : List (Nat × Int) :=
  let x_weight := dgridCoord tx wx x
  let y_weight := dgridCoord ty wy y
  let z_weight := dgridCoord tz wz z
  let fs := x_weight &&& 0xF
  let ft := y_weight &&& 0xF
  let fp := z_weight &&& 0xF
  let xi := x_weight >>> 4
  let yi := y_weight >>> 4
  let zi := z_weight >>> 4
  let q0 := (zi * wy + yi) * wx + xi
  let q3 := ((zi + 1) * wy + (yi + 1)) * wx + (xi + 1)
  let sel := simplexSelect (simplexCase fs ft fp) wx (wx * wy) fs ft fp
  [(q0, sel.w0), (q0 + sel.s1, sel.w1), (q0 + sel.s1 + sel.s2, sel.w2), (q3, sel.w3)]

/-- Corner function for a 3D block: texel `i` is `(x, y, z)` with
`x = i % tx`, `y = (i / tx) % ty`, `z = i / (tx * ty)` (the builder scans
z, y, x with `texel = (z * y_texels + y) * x_texels + x`). -/
def corners3d (tx ty tz wx wy wz : Nat) : Nat → List (Nat × Int) :=
  fun i => texelCorners3d tx ty tz wx wy wz (i % tx) ((i / tx) % ty) (i / (tx * ty))

/-- The nonzero-weight pairs of a texel, in slot order (the `weight[i] != 0`
filter of the accumulation loop). -/
def activeAt (corners : Nat → List (Nat × Int)) (i : Nat) : List (Nat × Int) :=
  (corners i).filter (fun p => p.2 != 0)

/-- `dt.texel_weight_count[i]`. -/
def texel_weight_count (corners : Nat → List (Nat × Int)) (i : Nat) : Nat :=
  (activeAt corners i).length

/-- `dt.texel_weights_4t[k][i]`: grid index of active slot k, zero-filled for
the inactive slots k < 4. -/
def texel_weights_4t (corners : Nat → List (Nat × Int)) (k i : Nat) : Nat :=
  ((activeAt corners i).map Prod.fst).getD k 0

/-- `dt.texel_weights_int_4t[k][i]`: integer blend weight of active slot k
(stored as uint8_t), zero-filled for the inactive slots k < 4.  The float
channel `texel_weights_float_4t` is this value times 1/16. -/
def texel_weights_int_4t (corners : Nat → List (Nat × Int)) (k i : Nat) : Nat :=
  ((activeAt corners i).map (fun p => storeU8 p.2)).getD k 0

/-- The per-weight accumulation `texels_of_weight[j]` /
`texel_weights_of_weight[j]`: scanning texels in order, every nonzero pair
whose grid index is j appends (texel, weight). -/
def texels_of_weight (corners : Nat → List (Nat × Int)) (tc j : Nat) :
    List (Nat × Int) :=
  (List.range tc).flatMap fun i =>
    ((activeAt corners i).filter (fun p => p.1 == j)).map fun p => (i, p.2)

/-- `dt.weight_texel_count[j]`. -/
def weight_texel_count (corners : Nat → List (Nat × Int)) (tc j : Nat) : Nat :=
  (texels_of_weight corners tc j).length

/-- `dt.weight_texel[t][j]`; for t beyond the count the builder repeats the
last real texel (SIMD tail padding). -/
def weight_texel (corners : Nat → List (Nat × Int)) (tc t j : Nat) : Nat :=
  let l := (texels_of_weight corners tc j).map Prod.fst
  l.getD t (l.getLastD 0)

/-- The `swap_idx` scan of the array-unrolling loop: the last k in 0..3 with
`texel_weights_4t[k][texel] == i && texel_weights_float_4t[k][texel] != 0.0f`,
or -1.  The float channel is the integer channel times 1/16 (exact in f32 for
values 0..16), so it is nonzero exactly when the integer channel is. -/
def swapIndex (corners : Nat → List (Nat × Int)) (j texel : Nat) : Int :=
  [0, 1, 2, 3].foldl
    (fun acc k =>
      if texel_weights_4t corners k texel == j
          && texel_weights_int_4t corners k texel != 0 then (k : Int) else acc)
    (-1)

/-- `dt.texel_weights_texel[j][t][k]` after the slot-0 reorder: the four-slot
contributor list of texel `weight_texel[t][j]`, with slots 0 and `swap_idx`
exchanged when `swap_idx != 0`. -/
def texel_weights_texel (corners : Nat → List (Nat × Int)) (tc j t k : Nat) :
    Nat :=
  let texel := weight_texel corners tc t j
  let s := swapIndex corners j texel
  if s = 0 then texel_weights_4t corners k texel
  else if k = 0 then texel_weights_4t corners s.toNat texel
  else if (k : Int) = s then texel_weights_4t corners 0 texel
  else texel_weights_4t corners k texel

/-! Arithmetic facts about the blend weights. -/

lemma and_fifteen_lt (n : Nat) : n &&& 0xF < 16 :=
  Nat.lt_succ_of_le Nat.and_le_right

lemma bilinear_w3_bounds :
    ∀ a < 16, ∀ b < 16,
      (a * b + 8) >>> 4 ≤ a ∧ (a * b + 8) >>> 4 ≤ b ∧
        a + b ≤ 16 + ((a * b + 8) >>> 4) := by
  decide

lemma corners2d_bounds (tx ty wx wy x y : Nat) :
    ∀ p ∈ texelCorners2d tx ty wx wy x y, 0 ≤ p.2 ∧ p.2 ≤ 16 := by
  intro p hp
  have hxf := and_fifteen_lt (dgridCoord tx wx x)
  have hyf := and_fifteen_lt (dgridCoord ty wy y)
  have h3 := bilinear_w3_bounds _ hxf _ hyf
  simp only [texelCorners2d, List.mem_cons, List.not_mem_nil, or_false] at hp
  rcases hp with h | h | h | h <;> subst h <;> constructor <;> simp <;> omega

lemma corners2d_sum (tx ty wx wy x y : Nat) :
    ((texelCorners2d tx ty wx wy x y).map (fun p => p.2)).sum = 16 := by
  simp only [texelCorners2d, List.map_cons, List.map_nil, List.sum_cons,
    List.sum_nil]
  omega

lemma simplexSelect_sum (cas N NM : Nat) (fs ft fp : Int) :
    (simplexSelect cas N NM fs ft fp).w0 + (simplexSelect cas N NM fs ft fp).w1
      + (simplexSelect cas N NM fs ft fp).w2
      + (simplexSelect cas N NM fs ft fp).w3 = 16 := by
  unfold simplexSelect
  split <;> simp <;> omega

lemma simplex_weight_bounds (N NM a b c : Nat) (ha : a < 16) (hb : b < 16)
    (hc : c < 16) :
    (0 ≤ (simplexSelect (simplexCase a b c) N NM a b c).w0 ∧
        (simplexSelect (simplexCase a b c) N NM a b c).w0 ≤ 16) ∧
      (0 ≤ (simplexSelect (simplexCase a b c) N NM a b c).w1 ∧
        (simplexSelect (simplexCase a b c) N NM a b c).w1 ≤ 16) ∧
      (0 ≤ (simplexSelect (simplexCase a b c) N NM a b c).w2 ∧
        (simplexSelect (simplexCase a b c) N NM a b c).w2 ≤ 16) ∧
      (0 ≤ (simplexSelect (simplexCase a b c) N NM a b c).w3 ∧
        (simplexSelect (simplexCase a b c) N NM a b c).w3 ≤ 16) := by
  by_cases h1 : (a : Int) > (b : Int) <;> by_cases h2 : (b : Int) > (c : Int) <;>
    by_cases h3 : (a : Int) > (c : Int) <;>
    simp only [simplexCase, h1, h2, h3, if_true, if_false] <;>
    norm_num <;> simp only [simplexSelect] <;> omega

lemma corners3d_bounds (tx ty tz wx wy wz x y z : Nat) :
    ∀ p ∈ texelCorners3d tx ty tz wx wy wz x y z, 0 ≤ p.2 ∧ p.2 ≤ 16 := by
  intro p hp
  have hfs := and_fifteen_lt (dgridCoord tx wx x)
  have hft := and_fifteen_lt (dgridCoord ty wy y)
  have hfp := and_fifteen_lt (dgridCoord tz wz z)
  have hw := simplex_weight_bounds wx (wx * wy) _ _ _ hfs hft hfp
  simp only [texelCorners3d, List.mem_cons, List.not_mem_nil, or_false] at hp
  rcases hp with h | h | h | h <;> subst h <;>
    first
      | exact hw.1
      | exact hw.2.1
      | exact hw.2.2.1
      | exact hw.2.2.2

lemma corners3d_sum (tx ty tz wx wy wz x y z : Nat) :
    ((texelCorners3d tx ty tz wx wy wz x y z).map (fun p => p.2)).sum = 16 := by
  have hs := simplexSelect_sum
    (simplexCase (↑(dgridCoord tx wx x &&& 0xF)) (↑(dgridCoord ty wy y &&& 0xF))
      (↑(dgridCoord tz wz z &&& 0xF)))
    wx (wx * wy) (↑(dgridCoord tx wx x &&& 0xF)) (↑(dgridCoord ty wy y &&& 0xF))
    (↑(dgridCoord tz wz z &&& 0xF))
  simp only [texelCorners3d, List.map_cons, List.map_nil, List.sum_cons,
    List.sum_nil]
  omega

/-! Generic facts used to evaluate the sums over active slots. -/

lemma getd_range_map_sum (l : List Nat) :
    ((List.range l.length).map (fun s => l.getD s 0)).sum = l.sum := by
  induction l with
  | nil => simp
  | cons a t ih =>
    rw [List.length_cons, List.range_succ_eq_map, List.map_cons, List.map_map]
    simp only [Function.comp_def, Nat.succ_eq_add_one, List.getD_cons_zero,
      List.getD_cons_succ, List.sum_cons]
    rw [ih]

lemma sum_filter_bne_zero (l : List (Nat × Int)) :
    ((l.filter (fun p => p.2 != 0)).map (fun p => p.2)).sum
      = (l.map (fun p => p.2)).sum := by
  induction l with
  | nil => simp
  | cons p t ih =>
    by_cases h : p.2 = 0
    · simp [List.filter_cons, h, ih]
    · simp [List.filter_cons, h, ih]

lemma sum_map_toNat (l : List Int) (h : ∀ x ∈ l, 0 ≤ x) :
    ((l.map Int.toNat).sum : Int) = l.sum := by
  induction l with
  | nil => simp
  | cons a t ih =>
    simp only [List.map_cons, List.sum_cons]
    have ha := h a (by simp)
    have ht := ih (fun x hx => h x (by simp [hx]))
    rw [Nat.cast_add, Int.toNat_of_nonneg ha, ht]

/-- The sum over the active slots of the stored integer blend weights is 16,
for any corner function whose weights are bounded in [0, 16] and sum to 16. -/
lemma active_int_sum (corners : Nat → List (Nat × Int)) (i : Nat)
    (hb : ∀ p ∈ corners i, 0 ≤ p.2 ∧ p.2 ≤ 16)
    (hs : ((corners i).map (fun p => p.2)).sum = 16) :
    ((List.range (texel_weight_count corners i)).map
        (fun s => texel_weights_int_4t corners s i)).sum = 16 := by
  have hlen : texel_weight_count corners i =
      ((activeAt corners i).map (fun p => storeU8 p.2)).length := by
    simp [texel_weight_count]
  unfold texel_weights_int_4t
  rw [hlen, getd_range_map_sum]
  have hsub : ∀ p ∈ activeAt corners i, storeU8 p.2 = p.2.toNat := by
    intro p hp
    have hmem : p ∈ corners i := (List.mem_filter.mp hp).1
    have hbp := hb p hmem
    unfold storeU8
    rw [Int.emod_eq_of_lt hbp.1 (by omega)]
  rw [List.map_congr_left hsub]
  have hmm : (activeAt corners i).map (fun p => p.2.toNat)
      = ((activeAt corners i).map (fun p => p.2)).map Int.toNat := by
    rw [List.map_map]; rfl
  rw [hmm]
  have hnn : ∀ x ∈ (activeAt corners i).map (fun p => p.2), (0 : Int) ≤ x := by
    intro x hx
    rcases List.mem_map.mp hx with ⟨p, hp, rfl⟩
    exact (hb p (List.mem_filter.mp hp).1).1
  have hcast := sum_map_toNat _ hnn
  have hfil : ((activeAt corners i).map (fun p => p.2)).sum = 16 := by
    unfold activeAt
    rw [sum_filter_bne_zero, hs]
  omega

/-- Inactive slots hold integer weight zero. -/
lemma int4t_pad (corners : Nat → List (Nat × Int)) (i s : Nat)
    (h : texel_weight_count corners i ≤ s) :
    texel_weights_int_4t corners s i = 0 := by
  unfold texel_weights_int_4t
  rw [List.getD_eq_getElem?_getD, List.getElem?_eq_none (by simpa using h)]
  rfl

/-! Block-mode packing (`construct_block_size_descriptor_2d/3d`).  Both
builders walk mode ids 0..2047 keeping a predicate-selected subset; the kept
mode is appended at position `packed_idx` (the number of modes kept so far,
i.e. the number of kept ids below it) and `block_mode_packed_index[i]` is set
to that position; discarded ids get -1. -/

/-- The 2D keep decision: the negation of the skip condition
`!valid || !selected || (x_weights > x_texels) || (y_weights > y_texels)`.
`sel` abstracts the percentile-cutoff decision
`(percentile <= mode_cutoff) || !can_omit_modes`, whose table is an external
input (spec §1). -/
def keep_block_mode_2d (tx ty : Nat) (sel : Nat → Bool) (m : Nat) : Bool :=
  (decode_block_mode_2d m).valid && sel m
    && !(decide (tx < (decode_block_mode_2d m).x_weights))
    && !(decide (ty < (decode_block_mode_2d m).y_weights))

/-- The 3D keep decision (`permit_encode`): a valid decode whose weight grid
fits in the block.  The 3D path has no percentile filter. -/
def keep_block_mode_3d (tx ty tz : Nat) (m : Nat) : Bool :=
  (decode_block_mode_3d m).valid
    && !(decide (tx < (decode_block_mode_3d m).x_weights))
    && !(decide (ty < (decode_block_mode_3d m).y_weights))
    && !(decide (tz < (decode_block_mode_3d m).z_weights))

/-- The packed `bsd.block_modes` array, reduced to its `mode_index` fields
(the loop stores `block_modes[packed_idx].mode_index = i` for each kept i in
increasing order). -/
def packed_block_modes (keep : Nat → Bool) : List Nat :=
  (List.range MAX_WEIGHT_MODES).filter keep

/-- `bsd.block_mode_count`. -/
def block_mode_count (keep : Nat → Bool) : Nat :=
  (packed_block_modes keep).length

/-- `bsd.block_mode_packed_index[m]`: the value of `packed_idx` when mode m
was kept — the number of kept ids below m — or -1 when it was discarded. -/
def block_mode_packed_index (keep : Nat → Bool) (m : Nat) : Int :=
  if keep m then ((List.range m).countP keep : Int) else -1

/-- The k-th element of a filtered range has exactly k earlier elements
satisfying the predicate. -/
lemma countP_range_filter_getD (p : Nat → Bool) (n : Nat) :
    ∀ k, k < ((List.range n).filter p).length →
      (List.range (((List.range n).filter p).getD k 0)).countP p = k := by
  induction n with
  | zero => intro k hk; simp at hk
  | succ n ih =>
    intro k hk
    rw [List.range_succ, List.filter_append] at hk ⊢
    by_cases hlt : k < ((List.range n).filter p).length
    · rw [List.getD_eq_getElem?_getD, List.getElem?_append, if_pos hlt,
        ← List.getD_eq_getElem?_getD]
      exact ih k hlt
    · have hp : p n = true := by
        by_contra hpn
        simp only [Bool.not_eq_true] at hpn
        simp [List.filter_cons, hpn] at hk
        omega
      simp [List.filter_cons, hp] at hk ⊢
      have hlen : ((List.range n).filter p).length = k := by omega
      rw [List.getElem?_append, if_neg (by omega)]
      simp only [hlen, Nat.sub_self, List.getElem?_cons_zero, Option.getD_some]
      rw [← hlen, List.countP_eq_length_filter]

/-- Round-trip of the packed index through the packed mode list, for an
arbitrary keep predicate. -/
lemma packed_index_roundtrip (keep : Nat → Bool) (k : Nat)
    (hk : k < block_mode_count keep) :
    block_mode_packed_index keep ((packed_block_modes keep).getD k 0) = k := by
  have hmem : (packed_block_modes keep).getD k 0 ∈ packed_block_modes keep := by
    rw [List.getD_eq_getElem?_getD, List.getElem?_eq_getElem hk]
    exact List.getElem_mem ..
  have hkeep : keep ((packed_block_modes keep).getD k 0) = true :=
    (List.mem_filter.mp hmem).2
  unfold block_mode_packed_index
  rw [hkeep, if_pos rfl]
  exact_mod_cast countP_range_filter_getD keep MAX_WEIGHT_MODES k hk

/-! Slot structure of the per-texel corner lists: the four grid corner
indices of one texel are strictly increasing, so a weight index appears in at
most one slot. -/

lemma corners2d_keys_sorted (tx ty wx wy x y : Nat) (hwx : 2 ≤ wx) :
    ((texelCorners2d tx ty wx wy x y).map Prod.fst).Pairwise (· < ·) := by
  simp only [texelCorners2d, List.map_cons, List.map_nil]
  simp [List.pairwise_cons]
  omega

lemma simplexSelect_stride_bounds (cas N NM : Nat) (fs ft fp : Int)
    (hN : 1 ≤ N) (hNM : 1 ≤ NM) :
    1 ≤ (simplexSelect cas N NM fs ft fp).s1 ∧
      1 ≤ (simplexSelect cas N NM fs ft fp).s2 ∧
      (simplexSelect cas N NM fs ft fp).s1 + (simplexSelect cas N NM fs ft fp).s2
        ≤ N + NM := by
  unfold simplexSelect
  split <;> simp <;> omega

lemma keys_pairwise_aux (q0 s1 s2 d : Nat) (h1 : 1 ≤ s1) (h2 : 1 ≤ s2)
    (h3 : s1 + s2 < d) :
    List.Pairwise (· < ·) [q0, q0 + s1, q0 + s1 + s2, q0 + d] := by
  simp [List.pairwise_cons]
  omega

lemma corners3d_keys_sorted (tx ty tz wx wy wz x y z : Nat) (hwx : 1 ≤ wx)
    (hwy : 1 ≤ wy) :
    ((texelCorners3d tx ty tz wx wy wz x y z).map Prod.fst).Pairwise (· < ·) := by
  have hnm : 1 ≤ wx * wy := Nat.mul_pos hwx hwy
  have hst := simplexSelect_stride_bounds
    (simplexCase (↑(dgridCoord tx wx x &&& 0xF)) (↑(dgridCoord ty wy y &&& 0xF))
      (↑(dgridCoord tz wz z &&& 0xF)))
    wx (wx * wy) (↑(dgridCoord tx wx x &&& 0xF)) (↑(dgridCoord ty wy y &&& 0xF))
    (↑(dgridCoord tz wz z &&& 0xF)) hwx hnm
  simp only [texelCorners3d, List.map_cons, List.map_nil]
  have e : ((dgridCoord tz wz z >>> 4 + 1) * wy + (dgridCoord ty wy y >>> 4 + 1))
        * wx + (dgridCoord tx wx x >>> 4 + 1)
      = (dgridCoord tz wz z >>> 4 * wy + dgridCoord ty wy y >>> 4) * wx
          + dgridCoord tx wx x >>> 4 + (wx * wy + wx + 1) := by
    ring
  rw [e]
  exact keys_pairwise_aux _ _ _ _ hst.1 hst.2.1 (by omega)

lemma corners2d_len4 (tx ty wx wy i : Nat) :
    (corners2d tx ty wx wy i).length = 4 := by
  simp [corners2d, texelCorners2d]

lemma corners3d_len4 (tx ty tz wx wy wz i : Nat) :
    (corners3d tx ty tz wx wy wz i).length = 4 := by
  simp [corners3d, texelCorners3d]

/-- Membership in the per-weight accumulation list. -/
lemma mem_texels_of_weight (corners : Nat → List (Nat × Int)) (tc j i : Nat)
    (w : Int) :
    (i, w) ∈ texels_of_weight corners tc j ↔
      i < tc ∧ (j, w) ∈ activeAt corners i := by
  unfold texels_of_weight
  simp only [List.mem_flatMap, List.mem_range, List.mem_map, List.mem_filter]
  constructor
  · rintro ⟨a, ha, ⟨p1, p2⟩, ⟨hp, hpj⟩, he⟩
    injection he with he1 he2
    subst he1
    subst he2
    have : p1 = j := by simpa using hpj
    subst this
    exact ⟨ha, hp⟩
  · rintro ⟨hi, hj⟩
    exact ⟨i, hi, (j, w), ⟨hj, by simp⟩, rfl⟩

/-- An in-bounds `getD` is a member of the list. -/
lemma getD_mem_of_lt {α : Type _} (l : List α) (k : Nat) (d : α)
    (h : k < l.length) : l.getD k d ∈ l := by
  rw [List.getD_eq_getElem?_getD, List.getElem?_eq_getElem h]
  exact List.getElem_mem ..

/-- An in-bounds `getD` through a map, with any defaults. -/
lemma getD_map_lt {α β : Type _} (f : α → β) (l : List α) (k : Nat) (d : β)
    (e : α) (h : k < l.length) : (l.map f).getD k d = f (l.getD k e) := by
  rw [List.getD_eq_getElem?_getD, List.getD_eq_getElem?_getD,
    List.getElem?_eq_getElem (by simpa using h), List.getElem?_eq_getElem h]
  simp

/-- The t-th per-weight entry comes with its weight from the accumulation. -/
lemma weight_texel_mem (corners : Nat → List (Nat × Int)) (tc t j : Nat)
    (ht : t < weight_texel_count corners tc j) :
    ∃ w, (weight_texel corners tc t j, w) ∈ texels_of_weight corners tc j := by
  have hlt : t < (texels_of_weight corners tc j).length := by
    simpa [weight_texel_count] using ht
  have h1 : weight_texel corners tc t j
      = ((texels_of_weight corners tc j).getD t (0, 0)).1 := by
    unfold weight_texel
    exact getD_map_lt Prod.fst _ t _ (0, 0) hlt
  refine ⟨((texels_of_weight corners tc j).getD t (0, 0)).2, ?_⟩
  rw [h1]
  exact getD_mem_of_lt _ t _ hlt

/-- Active slots carry a nonzero stored integer weight. -/
lemma int4t_ne_zero_of_lt (corners : Nat → List (Nat × Int)) (i k : Nat)
    (hb : ∀ p ∈ corners i, 0 ≤ p.2 ∧ p.2 ≤ 16)
    (hk : k < texel_weight_count corners i) :
    texel_weights_int_4t corners k i ≠ 0 := by
  have hk' : k < (activeAt corners i).length := by
    simpa [texel_weight_count] using hk
  have hval : texel_weights_int_4t corners k i
      = storeU8 ((activeAt corners i).getD k (0, 0)).2 := by
    unfold texel_weights_int_4t
    exact getD_map_lt (fun p => storeU8 p.2) _ k _ (0, 0) hk'
  have hpmem : (activeAt corners i).getD k (0, 0) ∈ activeAt corners i :=
    getD_mem_of_lt _ k _ hk'
  have hpc := (List.mem_filter.mp hpmem).1
  have hne : ((activeAt corners i).getD k (0, 0)).2 ≠ 0 := by
    simpa using (List.mem_filter.mp hpmem).2
  have hbp := hb _ hpc
  rw [hval]
  unfold storeU8
  rw [Int.emod_eq_of_lt hbp.1 (by omega)]
  omega

/-- A weight index j that reaches texel i through a nonzero weight occupies
exactly one active slot of i. -/
lemma active_unique_slot (corners : Nat → List (Nat × Int)) (i j : Nat) (w : Int)
    (hsort : ((corners i).map Prod.fst).Pairwise (· < ·))
    (hmem : (j, w) ∈ activeAt corners i) :
    ∃ k₀, (k₀ < texel_weight_count corners i ∧
        texel_weights_4t corners k₀ i = j) ∧
      ∀ k, k < texel_weight_count corners i →
        texel_weights_4t corners k i = j → k = k₀ := by
  have hsub : (activeAt corners i).Sublist (corners i) := List.filter_sublist _
  have hsort' : ((activeAt corners i).map Prod.fst).Pairwise (· < ·) :=
    List.Pairwise.sublist (hsub.map Prod.fst) hsort
  have hnd : ((activeAt corners i).map Prod.fst).Nodup :=
    hsort'.imp Nat.ne_of_lt
  have hj : j ∈ (activeAt corners i).map Prod.fst :=
    List.mem_map_of_mem Prod.fst hmem
  obtain ⟨n, hn, he⟩ := List.mem_iff_getElem.mp hj
  have hlen : ((activeAt corners i).map Prod.fst).length
      = texel_weight_count corners i := by
    simp [texel_weight_count]
  refine ⟨n, ⟨by omega, ?_⟩, ?_⟩
  · unfold texel_weights_4t
    rw [List.getD_eq_getElem?_getD, List.getElem?_eq_getElem hn]
    simpa using he
  · intro k hk h4
    have hk2 : k < ((activeAt corners i).map Prod.fst).length := by omega
    have h4e : ((activeAt corners i).map Prod.fst)[k] = j := by
      unfold texel_weights_4t at h4
      rw [List.getD_eq_getElem?_getD, List.getElem?_eq_getElem hk2] at h4
      simpa using h4
    exact (List.Nodup.getElem_inj_iff hnd).mp (h4e.trans he.symm)

/-- The swap-index scan finds exactly the unique matching active slot. -/
lemma swapIndex_eq (corners : Nat → List (Nat × Int)) (j texel k₀ : Nat)
    (hb : ∀ p ∈ corners texel, 0 ≤ p.2 ∧ p.2 ≤ 16)
    (hk4 : k₀ < 4)
    (hc : k₀ < texel_weight_count corners texel ∧
      texel_weights_4t corners k₀ texel = j)
    (hu : ∀ k, k < texel_weight_count corners texel →
      texel_weights_4t corners k texel = j → k = k₀) :
    swapIndex corners j texel = (k₀ : Int) := by
  have hcond : ∀ k, ((texel_weights_4t corners k texel == j
        && texel_weights_int_4t corners k texel != 0) = true) ↔
      (k < texel_weight_count corners texel ∧
        texel_weights_4t corners k texel = j) := by
    intro k
    constructor
    · intro h
      rw [Bool.and_eq_true] at h
      have h1 : texel_weights_4t corners k texel = j := by
        simpa using h.1
      have h2 : texel_weights_int_4t corners k texel ≠ 0 := by
        simpa using h.2
      have hk : k < texel_weight_count corners texel := by
        by_contra hge
        exact h2 (int4t_pad corners texel k (by omega))
      exact ⟨hk, h1⟩
    · rintro ⟨hk, h4⟩
      rw [Bool.and_eq_true]
      refine ⟨by simpa using h4, by simpa using int4t_ne_zero_of_lt corners texel k hb hk⟩
  have htrue : (texel_weights_4t corners k₀ texel == j
      && texel_weights_int_4t corners k₀ texel != 0) = true := (hcond k₀).mpr hc
  have hfalse : ∀ k, k ≠ k₀ → (texel_weights_4t corners k texel == j
      && texel_weights_int_4t corners k texel != 0) = false := by
    intro k hne
    by_contra hcf
    rw [Bool.not_eq_false] at hcf
    have hck := (hcond k).mp hcf
    exact hne (hu k hck.1 hck.2)
  unfold swapIndex
  simp only [List.foldl]
  interval_cases k₀
  · simp [htrue, hfalse 1 (by omega), hfalse 2 (by omega), hfalse 3 (by omega)]
  · simp [htrue, hfalse 0 (by omega), hfalse 2 (by omega), hfalse 3 (by omega)]
  · simp [htrue, hfalse 0 (by omega), hfalse 1 (by omega), hfalse 3 (by omega)]
  · simp [htrue, hfalse 0 (by omega), hfalse 1 (by omega), hfalse 2 (by omega)]

/-! Coverage of every weight grid point (claim C9).  The per-axis
enumerations below are decision procedures over the supported block sizes;
the cover lemmas lift them to the full 2D/3D tables. -/

/-- Every weight column j of the axis is approached within 8/16 of a grid
step by some texel coordinate: `16*j - 8 <= coord(x) <= 16*j + 8`. -/
def axisApproach (t w : Nat) : Bool :=
  (List.range w).all fun j => (List.range t).any fun x =>
    decide (16 * j ≤ dgridCoord t w x + 8) && decide (dgridCoord t w x ≤ 16 * j + 8)

/-- Every weight column j of the axis is hit exactly (integer part j) by some
texel coordinate. -/
def axisExact (t w : Nat) : Bool :=
  (List.range w).all fun j => (List.range t).any fun x =>
    dgridCoord t w x >>> 4 == j

lemma axisApproach_supported :
    ∀ t, t < 13 → ∀ w, w < 13 → 2 ≤ w → w ≤ t → axisApproach t w = true := by
  decide

lemma axisExact_supported :
    ∀ t, t < 7 → ∀ w, w < 7 → 2 ≤ w → w ≤ t → axisExact t w = true := by
  decide

lemma axisApproach_spec (t w j : Nat) (h : axisApproach t w = true) (hj : j < w) :
    ∃ x, x < t ∧ 16 * j ≤ dgridCoord t w x + 8 ∧ dgridCoord t w x ≤ 16 * j + 8 := by
  unfold axisApproach at h
  rw [List.all_eq_true] at h
  have hx := h j (List.mem_range.mpr hj)
  rw [List.any_eq_true] at hx
  obtain ⟨x, hmem, hcond⟩ := hx
  rw [Bool.and_eq_true, decide_eq_true_iff, decide_eq_true_iff] at hcond
  exact ⟨x, List.mem_range.mp hmem, hcond.1, hcond.2⟩

lemma axisExact_spec (t w j : Nat) (h : axisExact t w = true) (hj : j < w) :
    ∃ x, x < t ∧ dgridCoord t w x >>> 4 = j := by
  unfold axisExact at h
  rw [List.all_eq_true] at h
  have hx := h j (List.mem_range.mpr hj)
  rw [List.any_eq_true] at hx
  obtain ⟨x, hmem, hcond⟩ := hx
  exact ⟨x, List.mem_range.mp hmem, by simpa using hcond⟩

/-- An approach within 8 is either an exact hit with fraction at most 8, or a
hit of the previous column with fraction at least 8. -/
lemma approach_cases (t w j x : Nat) (h1 : 16 * j ≤ dgridCoord t w x + 8)
    (h2 : dgridCoord t w x ≤ 16 * j + 8) :
    (dgridCoord t w x >>> 4 = j ∧ dgridCoord t w x &&& 0xF ≤ 8) ∨
      (1 ≤ j ∧ dgridCoord t w x >>> 4 = j - 1 ∧ 8 ≤ dgridCoord t w x &&& 0xF) := by
  have e1 : dgridCoord t w x >>> 4 = dgridCoord t w x / 16 := by
    rw [Nat.shiftRight_eq_div_pow]
  have e2 : dgridCoord t w x &&& 0xF = dgridCoord t w x % 16 := by
    have h := Nat.and_pow_two_sub_one_eq_mod (dgridCoord t w x) 4
    norm_num at h
    exact h
  rw [e1, e2]
  omega

lemma bilinear_pos_lo :
    ∀ a, a < 16 → ∀ b, b < 16 →
      (a ≤ 8 → b ≤ 8 → a + b < 16 + ((a * b + 8) >>> 4)) ∧
      (8 ≤ a → b ≤ 8 → (a * b + 8) >>> 4 < a) := by
  decide

lemma bilinear_pos_hi :
    ∀ a, a < 16 → ∀ b, b < 16 →
      (a ≤ 8 → 8 ≤ b → (a * b + 8) >>> 4 < b) ∧
      (8 ≤ a → 8 ≤ b → 0 < (a * b + 8) >>> 4) := by
  decide

lemma simplexSelect_w0_pos (cas N NM : Nat) (fs ft fp : Int) (hfs : fs < 16)
    (hft : ft < 16) (hfp : fp < 16) :
    0 < (simplexSelect cas N NM fs ft fp).w0 := by
  unfold simplexSelect
  split <;> simp <;> omega

/-- A nonzero corner pair makes the active list of its texel, hence the
per-weight list of its grid index, nonempty. -/
lemma weight_texel_count_pos (corners : Nat → List (Nat × Int)) (tc j i : Nat)
    (w : Int) (hi : i < tc) (hp : (j, w) ∈ corners i) (hw : w ≠ 0) :
    1 ≤ weight_texel_count corners tc j := by
  have hact : (j, w) ∈ activeAt corners i :=
    List.mem_filter.mpr ⟨hp, by simpa using hw⟩
  have hmem := (mem_texels_of_weight corners tc j i w).mpr ⟨hi, hact⟩
  unfold weight_texel_count
  exact List.length_pos.mpr (List.ne_nil_of_mem hmem)

lemma corners2d_mem0 (tx ty wx wy x y : Nat) :
    ((dgridCoord tx wx x >>> 4) + (dgridCoord ty wy y >>> 4) * wx,
      (16 : Int) - ↑(dgridCoord tx wx x &&& 0xF) - ↑(dgridCoord ty wy y &&& 0xF)
        + ↑(((dgridCoord tx wx x &&& 0xF) * (dgridCoord ty wy y &&& 0xF) + 8) >>> 4))
      ∈ texelCorners2d tx ty wx wy x y := by
  simp [texelCorners2d]

lemma corners2d_mem1 (tx ty wx wy x y : Nat) :
    ((dgridCoord tx wx x >>> 4) + (dgridCoord ty wy y >>> 4) * wx + 1,
      (↑(dgridCoord tx wx x &&& 0xF) : Int)
        - ↑(((dgridCoord tx wx x &&& 0xF) * (dgridCoord ty wy y &&& 0xF) + 8) >>> 4))
      ∈ texelCorners2d tx ty wx wy x y := by
  simp [texelCorners2d]

lemma corners2d_mem2 (tx ty wx wy x y : Nat) :
    ((dgridCoord tx wx x >>> 4) + (dgridCoord ty wy y >>> 4) * wx + wx,
      (↑(dgridCoord ty wy y &&& 0xF) : Int)
        - ↑(((dgridCoord tx wx x &&& 0xF) * (dgridCoord ty wy y &&& 0xF) + 8) >>> 4))
      ∈ texelCorners2d tx ty wx wy x y := by
  simp [texelCorners2d]

lemma corners2d_mem3 (tx ty wx wy x y : Nat) :
    ((dgridCoord tx wx x >>> 4) + (dgridCoord ty wy y >>> 4) * wx + wx + 1,
      (↑(((dgridCoord tx wx x &&& 0xF) * (dgridCoord ty wy y &&& 0xF) + 8) >>> 4)
        : Int))
      ∈ texelCorners2d tx ty wx wy x y := by
  simp [texelCorners2d]

lemma corners3d_mem0 (tx ty tz wx wy wz x y z : Nat) :
    (((dgridCoord tz wz z >>> 4) * wy + (dgridCoord ty wy y >>> 4)) * wx
        + (dgridCoord tx wx x >>> 4),
      (simplexSelect
          (simplexCase (↑(dgridCoord tx wx x &&& 0xF))
            (↑(dgridCoord ty wy y &&& 0xF)) (↑(dgridCoord tz wz z &&& 0xF)))
          wx (wx * wy) (↑(dgridCoord tx wx x &&& 0xF))
          (↑(dgridCoord ty wy y &&& 0xF)) (↑(dgridCoord tz wz z &&& 0xF))).w0)
      ∈ texelCorners3d tx ty tz wx wy wz x y z := by
  simp [texelCorners3d]

/-- Every grid weight of a supported 2D decimation table receives at least
one texel with a nonzero blend weight. -/
lemma cover2d (tx ty wx wy : Nat) (hwx2 : 2 ≤ wx) (hwxtx : wx ≤ tx)
    (htx : tx ≤ 12) (hwy2 : 2 ≤ wy) (hwyty : wy ≤ ty) (hty : ty ≤ 12)
    (j : Nat) (hj : j < wx * wy) :
    1 ≤ weight_texel_count (corners2d tx ty wx wy) (tx * ty) j := by
  have hwxpos : 0 < wx := by omega
  have hjx : j % wx < wx := Nat.mod_lt _ hwxpos
  have hjy : j / wx < wy := Nat.div_lt_of_lt_mul hj
  obtain ⟨x, hx, hx1, hx2⟩ := axisApproach_spec tx wx (j % wx)
    (axisApproach_supported tx (by omega) wx (by omega) hwx2 hwxtx) hjx
  obtain ⟨y, hy, hy1, hy2⟩ := axisApproach_spec ty wy (j / wx)
    (axisApproach_supported ty (by omega) wy (by omega) hwy2 hwyty) hjy
  have hdm : wx * (j / wx) + j % wx = j := Nat.div_add_mod j wx
  rw [Nat.mul_comm] at hdm
  have hfx := and_fifteen_lt (dgridCoord tx wx x)
  have hfy := and_fifteen_lt (dgridCoord ty wy y)
  have hblo := bilinear_pos_lo _ hfx _ hfy
  have hbhi := bilinear_pos_hi _ hfx _ hfy
  set i := y * tx + x with hidef
  have hilt : i < tx * ty := by
    have e1 : (y + 1) * tx = y * tx + tx := by ring
    have h2 : (y + 1) * tx ≤ ty * tx := Nat.mul_le_mul_right tx (by omega)
    have e2 : ty * tx = tx * ty := Nat.mul_comm ty tx
    omega
  have hix : i % tx = x := by
    rw [hidef, Nat.add_comm, Nat.add_mul_mod_self_right, Nat.mod_eq_of_lt hx]
  have hiy : i / tx = y := by
    rw [hidef, Nat.add_comm, Nat.add_mul_div_right _ _ (by omega : 0 < tx),
      Nat.div_eq_of_lt hx]
    omega
  have hcor : corners2d tx ty wx wy i = texelCorners2d tx ty wx wy x y := by
    simp only [corners2d]
    rw [hix, hiy]
  rcases approach_cases tx wx (j % wx) x hx1 hx2 with ⟨hxi, hxfr⟩ | ⟨hjx1, hxi, hxfr⟩ <;>
    rcases approach_cases ty wy (j / wx) y hy1 hy2 with ⟨hyi, hyfr⟩ | ⟨hjy1, hyi, hyfr⟩
  · -- exact / exact: corner 0 carries weight w0 > 0
    have hm := corners2d_mem0 tx ty wx wy x y
    rw [hxi, hyi] at hm
    have hq : j % wx + j / wx * wx = j := by omega
    rw [hq, ← hcor] at hm
    refine weight_texel_count_pos _ _ _ i _ hilt hm ?_
    have := hblo.1 hxfr hyfr
    have h16 := and_fifteen_lt (dgridCoord tx wx x)
    omega
  · -- exact / previous: corner 2 carries weight w2 > 0
    have hm := corners2d_mem2 tx ty wx wy x y
    rw [hxi, hyi] at hm
    have hq : j % wx + (j / wx - 1) * wx + wx = j := by
      have e : (j / wx - 1) * wx + wx = j / wx * wx := by
        have e2 : (j / wx - 1) * wx = j / wx * wx - wx := Nat.sub_one_mul ..
        have e3 : wx ≤ j / wx * wx := Nat.le_mul_of_pos_left wx (by omega)
        omega
      omega
    rw [show j % wx + (j / wx - 1) * wx + wx = j from hq] at hm
    rw [← hcor] at hm
    refine weight_texel_count_pos _ _ _ i _ hilt hm ?_
    have := hbhi.1 hxfr hyfr
    omega
  · -- previous / exact: corner 1 carries weight w1 > 0
    have hm := corners2d_mem1 tx ty wx wy x y
    rw [hxi, hyi] at hm
    have hq : j % wx - 1 + j / wx * wx + 1 = j := by omega
    rw [hq] at hm
    rw [← hcor] at hm
    refine weight_texel_count_pos _ _ _ i _ hilt hm ?_
    have := hblo.2 hxfr hyfr
    omega
  · -- previous / previous: corner 3 carries weight w3 > 0
    have hm := corners2d_mem3 tx ty wx wy x y
    rw [hxi, hyi] at hm
    have hq : j % wx - 1 + (j / wx - 1) * wx + wx + 1 = j := by
      have e : (j / wx - 1) * wx + wx = j / wx * wx := by
        have e2 : (j / wx - 1) * wx = j / wx * wx - wx := Nat.sub_one_mul ..
        have e3 : wx ≤ j / wx * wx := Nat.le_mul_of_pos_left wx (by omega)
        omega
      omega
    rw [hq] at hm
    rw [← hcor] at hm
    refine weight_texel_count_pos _ _ _ i _ hilt hm ?_
    have := hbhi.2 hxfr hyfr
    omega

/-- Every grid weight of a supported 3D decimation table receives at least
one texel with a nonzero blend weight (its exact-hit texel contributes corner
0, whose simplex weight 16 - frac is always positive). -/
lemma cover3d (tx ty tz wx wy wz : Nat) (hwx2 : 2 ≤ wx) (hwxtx : wx ≤ tx)
    (htx : tx ≤ 6) (hwy2 : 2 ≤ wy) (hwyty : wy ≤ ty) (hty : ty ≤ 6)
    (hwz2 : 2 ≤ wz) (hwztz : wz ≤ tz) (htz : tz ≤ 6)
    (j : Nat) (hj : j < wx * wy * wz) :
    1 ≤ weight_texel_count (corners3d tx ty tz wx wy wz) (tx * ty * tz) j := by
  have hjx : j % wx < wx := Nat.mod_lt _ (by omega)
  have hjy : j / wx % wy < wy := Nat.mod_lt _ (by omega)
  have hjz : j / (wx * wy) < wz := Nat.div_lt_of_lt_mul hj
  obtain ⟨x, hx, hxi⟩ := axisExact_spec tx wx (j % wx)
    (axisExact_supported tx (by omega) wx (by omega) hwx2 hwxtx) hjx
  obtain ⟨y, hy, hyi⟩ := axisExact_spec ty wy (j / wx % wy)
    (axisExact_supported ty (by omega) wy (by omega) hwy2 hwyty) hjy
  obtain ⟨z, hz, hzi⟩ := axisExact_spec tz wz (j / (wx * wy))
    (axisExact_supported tz (by omega) wz (by omega) hwz2 hwztz) hjz
  set i := (z * ty + y) * tx + x with hidef
  have hilt : i < tx * ty * tz := by
    have e1 : (z * ty + y + 1) * tx = (z * ty + y) * tx + tx := by ring
    have h1 : z * ty + y + 1 ≤ ty * tz := by
      have e2 : (z + 1) * ty = z * ty + ty := by ring
      have h3 : (z + 1) * ty ≤ tz * ty := Nat.mul_le_mul_right ty (by omega)
      have e3 : tz * ty = ty * tz := Nat.mul_comm tz ty
      omega
    have h2 : (z * ty + y + 1) * tx ≤ ty * tz * tx := Nat.mul_le_mul_right tx h1
    have e4 : ty * tz * tx = tx * ty * tz := by ring
    omega
  have hix : i % tx = x := by
    rw [hidef, Nat.add_comm, Nat.add_mul_mod_self_right, Nat.mod_eq_of_lt hx]
  have hidiv : i / tx = z * ty + y := by
    rw [hidef, Nat.add_comm, Nat.add_mul_div_right _ _ (by omega : 0 < tx),
      Nat.div_eq_of_lt hx]
    omega
  have hiy : i / tx % ty = y := by
    rw [hidiv, Nat.add_comm, Nat.add_mul_mod_self_right, Nat.mod_eq_of_lt hy]
  have hiz : i / (tx * ty) = z := by
    rw [← Nat.div_div_eq_div_mul, hidiv, Nat.add_comm,
      Nat.add_mul_div_right _ _ (by omega : 0 < ty), Nat.div_eq_of_lt hy]
    omega
  have hcor : corners3d tx ty tz wx wy wz i
      = texelCorners3d tx ty tz wx wy wz x y z := by
    simp only [corners3d]
    rw [hix, hiy, hiz]
  have hm := corners3d_mem0 tx ty tz wx wy wz x y z
  rw [hxi, hyi, hzi] at hm
  have hq : (j / (wx * wy) * wy + j / wx % wy) * wx + j % wx = j := by
    have h1 : wx * (j / wx) + j % wx = j := Nat.div_add_mod j wx
    have h2 : wy * (j / wx / wy) + j / wx % wy = j / wx := Nat.div_add_mod (j / wx) wy
    have h3 : j / wx / wy = j / (wx * wy) := Nat.div_div_eq_div_mul j wx wy
    rw [← h3]
    calc (j / wx / wy * wy + j / wx % wy) * wx + j % wx
        = (wy * (j / wx / wy) + j / wx % wy) * wx + j % wx := by ring_nf
      _ = (j / wx) * wx + j % wx := by rw [h2]
      _ = wx * (j / wx) + j % wx := by ring_nf
      _ = j := h1
  rw [hq, ← hcor] at hm
  refine weight_texel_count_pos _ _ _ i _ hilt hm ?_
  have hw0 := simplexSelect_w0_pos
    (simplexCase (↑(dgridCoord tx wx x &&& 0xF)) (↑(dgridCoord ty wy y &&& 0xF))
      (↑(dgridCoord tz wz z &&& 0xF)))
    wx (wx * wy) (↑(dgridCoord tx wx x &&& 0xF)) (↑(dgridCoord ty wy y &&& 0xF))
    (↑(dgridCoord tz wz z &&& 0xF))
    (by exact_mod_cast and_fifteen_lt (dgridCoord tx wx x))
    (by exact_mod_cast and_fifteen_lt (dgridCoord ty wy y))
    (by exact_mod_cast and_fifteen_lt (dgridCoord tz wz z))
  omega

/-! Partition tables (`astcenc_partition_tables.cpp`). -/

def PARTITION_COUNT : Nat := 1024

/-- The `hash52` mix function on uint32: every multiplication, addition and
left shift is reduced mod 2^32; xors and right shifts stay in range. -/
def hash52 (inp : Nat) : Nat :=
  let p1 := inp ^^^ (inp >>> 15)
  let p2 := (p1 * 0xEEDE0891) % 4294967296
  let p3 := p2 ^^^ (p2 >>> 5)
  let p4 := (p3 + ((p3 <<< 16) % 4294967296)) % 4294967296
  let p5 := p4 ^^^ (p4 >>> 7)
  let p6 := p5 ^^^ (p5 >>> 3)
  let p7 := p6 ^^^ ((p6 <<< 6) % 4294967296)
  p7 ^^^ (p7 >>> 17)

/-- The tail of `select_partition`: the argmax chain over the four linear
forms, ties preferring lower partition ids. -/
def partitionOfFour (a b c d : Nat) : Nat :=
  if a ≥ b ∧ a ≥ c ∧ a ≥ d then 0
  else if b ≥ c ∧ b ≥ d then 1
  else if c ≥ d then 2
  else 3

/-- Embedding of `select_partition`.  The twelve seed nibbles are squared
(uint8_t squares of values at most 15 do not wrap), shifted, combined into
four linear forms masked to 6 bits, zeroed down to the requested partition
count, and resolved by the argmax chain with ties preferring lower ids. -/
def select_partition (seed0 x0 y0 z0 partition_count : Nat)
    (small_block : Bool) : Nat :=
  let x := if small_block then x0 <<< 1 else x0
  let y := if small_block then y0 <<< 1 else y0
  let z := if small_block then z0 <<< 1 else z0
  let seed := seed0 + (partition_count - 1) * 1024
  let rnum := hash52 seed
  let s1 := rnum &&& 0xF
  let s2 := (rnum >>> 4) &&& 0xF
  let s3 := (rnum >>> 8) &&& 0xF
  let s4 := (rnum >>> 12) &&& 0xF
  let s5 := (rnum >>> 16) &&& 0xF
  let s6 := (rnum >>> 20) &&& 0xF
  let s7 := (rnum >>> 24) &&& 0xF
  let s8 := (rnum >>> 28) &&& 0xF
  let s9 := (rnum >>> 18) &&& 0xF
  let s10 := (rnum >>> 22) &&& 0xF
  let s11 := (rnum >>> 26) &&& 0xF
  let s12 := ((rnum >>> 30) ||| ((rnum <<< 2) % 4294967296)) &&& 0xF
  let s1 := s1 * s1
  let s2 := s2 * s2
  let s3 := s3 * s3
  let s4 := s4 * s4
  let s5 := s5 * s5
  let s6 := s6 * s6
  let s7 := s7 * s7
  let s8 := s8 * s8
  let s9 := s9 * s9
  let s10 := s10 * s10
  let s11 := s11 * s11
  let s12 := s12 * s12
  let sh1 := if seed &&& 1 ≠ 0 then (if seed &&& 2 ≠ 0 then 4 else 5)
    else (if partition_count = 3 then 6 else 5)
  let sh2 := if seed &&& 1 ≠ 0 then (if partition_count = 3 then 6 else 5)
    else (if seed &&& 2 ≠ 0 then 4 else 5)
  let sh3 := if seed &&& 0x10 ≠ 0 then sh1 else sh2
  let s1 := s1 >>> sh1
  let s2 := s2 >>> sh2
  let s3 := s3 >>> sh1
  let s4 := s4 >>> sh2
  let s5 := s5 >>> sh1
  let s6 := s6 >>> sh2
  let s7 := s7 >>> sh1
  let s8 := s8 >>> sh2
  let s9 := s9 >>> sh3
  let s10 := s10 >>> sh3
  let s11 := s11 >>> sh3
  let s12 := s12 >>> sh3
  let a := (s1 * x + s2 * y + s11 * z + (rnum >>> 14)) &&& 0x3F
  let b := (s3 * x + s4 * y + s12 * z + (rnum >>> 10)) &&& 0x3F
  let c := (s5 * x + s6 * y + s9 * z + (rnum >>> 6)) &&& 0x3F
  let d := (s7 * x + s8 * y + s10 * z + (rnum >>> 2)) &&& 0x3F
  let d := if partition_count ≤ 3 then 0 else d
  let c := if partition_count ≤ 2 then 0 else c
  let b := if partition_count ≤ 1 then 0 else b
  partitionOfFour a b c d

/-- `partition_of_texel[i]` of the entry generated by
`generate_one_partition_info_entry` for (partition_count, seed): the scan is
z outer, y middle, x inner, so texel i has x = i % xdim, y = i / xdim % ydim,
z = i / (xdim * ydim). -/
def partition_of_texel_at (xdim ydim zdim partition_count seed i : Nat) : Nat :=
  select_partition seed (i % xdim) (i / xdim % ydim) (i / (xdim * ydim))
    partition_count (decide (xdim * ydim * zdim < 32))

/-- `counts[p]` accumulated by the generation loop: the number of texels
assigned to partition p. -/
def partition_texel_counts (xdim ydim zdim partition_count seed p : Nat) : Nat :=
  ((List.range (xdim * ydim * zdim)).filter
    (fun i => partition_of_texel_at xdim ydim zdim partition_count seed i == p)).length

/-- The `partition_count` stored by `generate_one_partition_info_entry`: the
if-chain on the first empty partition. -/
def stored_partition_count (counts : Nat → Nat) : Nat :=
  if counts 0 = 0 then 0
  else if counts 1 = 0 then 1
  else if counts 2 = 0 then 2
  else if counts 3 = 0 then 3
  else 4

/-- The claim's characterization of that value, used as the spec-side
definition of the refinement comparison: the length of the longest prefix of
non-empty partitions among 0..3. -/
def leadingNonemptyLen (counts : Nat → Nat) : Nat :=
  ((List.range 4).takeWhile (fun p => counts p != 0)).length

/-- One step of `generate_canonical_partitioning`: remap the partition id in
first-occurrence order and or the two remapped bits into word i >> 5 at bit
2*(i & 0x1F).  State: (mapped_index, next remap id, the seven u64 words). -/
def canonStep (pot : Nat → Nat) (st : List Int × Nat × List Nat) (i : Nat) :
    List Int × Nat × List Nat :=
  let index := pot i
  let mc : List Int × Nat :=
    if st.1.getD index (-1) = -1 then (st.1.set index (st.2.1 : Int), st.2.1 + 1)
    else (st.1, st.2.1)
  let xlat := (mc.1.getD index (-1)).toNat
  (mc.1, mc.2,
    st.2.2.set (i >>> 5) ((st.2.2.getD (i >>> 5) 0) ||| (xlat <<< (2 * (i &&& 0x1F)))))

/-- The canonical bit pattern of a partitioning (seven u64 words; each word
stays below 2^64 since only bit positions 0..63 are set). -/
def canonical_words (texel_count : Nat) (pot : Nat → Nat) : List Nat :=
  ((List.range texel_count).foldl (canonStep pot)
    ([-1, -1, -1, -1], 0, [0, 0, 0, 0, 0, 0, 0])).2.2

/-- The effect of `remove_duplicate_partitionings` on entry i of one table:
its partition_count becomes 0 when an earlier entry of the same table has the
same canonical pattern (`compare_canonical_partitionings` over the 7 words),
and is kept otherwise. -/
def dedup_partition_count (texel_count : Nat) (pots : Nat → Nat → Nat)
    (counts : Nat → Nat) (i : Nat) : Nat :=
  if (List.range i).any (fun j =>
      canonical_words texel_count (pots j) == canonical_words texel_count (pots i))
  then 0 else counts i

/-- The partition map of seed i in the table for this partition count. -/
def table_pot (xdim ydim zdim partition_count : Nat) : Nat → Nat → Nat :=
  fun seed => partition_of_texel_at xdim ydim zdim partition_count seed

/-- The final `partition_count` of entry i of the (deduplicated) table for
this partition count, as produced by `init_partition_tables`. -/
def table_final_count (xdim ydim zdim partition_count i : Nat) : Nat :=
  dedup_partition_count (xdim * ydim * zdim)
    (table_pot xdim ydim zdim partition_count)
    (fun seed => stored_partition_count
      (partition_texel_counts xdim ydim zdim partition_count seed)) i

/-- The argmax chain stays below the partition count when the components
beyond it have been zeroed. -/
lemma partitionOfFour_lt (a b c d pc : Nat) (h1 : 1 ≤ pc)
    (hb : pc ≤ 1 → b = 0) (hc : pc ≤ 2 → c = 0) (hd : pc ≤ 3 → d = 0) :
    partitionOfFour a b c d < pc ∧ (pc = 1 → partitionOfFour a b c d = 0) := by
  constructor
  · unfold partitionOfFour
    by_cases hp1 : pc ≤ 1
    · rw [hb hp1, hc (by omega), hd (by omega)]
      simp [Nat.zero_le]
      omega
    · by_cases hp2 : pc ≤ 2
      · rw [hc hp2, hd (by omega)]
        split
        · omega
        · split
          · omega
          · rename_i h2
            exact absurd ⟨Nat.zero_le _, Nat.zero_le _⟩ h2
      · by_cases hp3 : pc ≤ 3
        · rw [hd hp3]
          split
          · omega
          · split
            · omega
            · split
              · omega
              · rename_i h3
                exact absurd (Nat.zero_le _) h3
        · split
          · omega
          · split
            · omega
            · split <;> omega
  · intro hpc
    subst hpc
    unfold partitionOfFour
    rw [hb (by omega), hc (by omega), hd (by omega)]
    simp [Nat.zero_le]

/-- The stored-count if-chain computes the longest-nonempty-prefix length,
for any counts. -/
lemma stored_eq_leading (c : Nat → Nat) :
    stored_partition_count c = leadingNonemptyLen c := by
  unfold stored_partition_count leadingNonemptyLen
  have h4 : List.range 4 = [0, 1, 2, 3] := rfl
  rw [h4]
  by_cases h0 : c 0 = 0 <;> by_cases h1 : c 1 = 0 <;> by_cases h2 : c 2 = 0 <;>
    by_cases h3 : c 3 = 0 <;>
    simp [List.takeWhile_cons, h0, h1, h2, h3, bne_iff_ne]

/-- Full slot structure at a (weight, texel) incidence: the unique active
slot k₀ holding j, and the swap-index scan selecting it. -/
lemma slot_swap_structure (corners : Nat → List (Nat × Int)) (tc j t : Nat)
    (hb : ∀ i, ∀ p ∈ corners i, 0 ≤ p.2 ∧ p.2 ≤ 16)
    (hsort : ∀ i, ((corners i).map Prod.fst).Pairwise (· < ·))
    (hlen4 : ∀ i, (corners i).length = 4)
    (ht : t < weight_texel_count corners tc j) :
    ∃ k₀, k₀ < 4 ∧
      k₀ < texel_weight_count corners (weight_texel corners tc t j) ∧
      texel_weights_4t corners k₀ (weight_texel corners tc t j) = j ∧
      (∀ k, k < texel_weight_count corners (weight_texel corners tc t j) →
        texel_weights_4t corners k (weight_texel corners tc t j) = j → k = k₀) ∧
      swapIndex corners j (weight_texel corners tc t j) = (k₀ : Int) := by
  obtain ⟨w, hw⟩ := weight_texel_mem corners tc t j ht
  set texel := weight_texel corners tc t j with htex
  have hmem := ((mem_texels_of_weight corners tc j texel w).mp hw).2
  obtain ⟨k₀, hc, hu⟩ := active_unique_slot corners texel j w (hsort texel) hmem
  have htwc4 : texel_weight_count corners texel ≤ 4 := by
    have := List.length_filter_le (fun p => p.2 != 0) (corners texel)
    rw [hlen4 texel] at this
    simpa [texel_weight_count, activeAt] using this
  have hk4 : k₀ < 4 := by omega
  exact ⟨k₀, hk4, hc.1, hc.2, hu,
    swapIndex_eq corners j texel k₀ (hb texel) hk4 hc hu⟩

end Astc

/-- C7: for every integer fraction triple the simplex case index is never 1
and never 6; every computed case lies in {0,2,3,4,5,7}, so the defensive
`default` clause of the switch (a copy of case 0) is unreachable. -/
theorem C7_simplex_case_unreachable (fs ft fp : Int) :
    Astc.simplexCase fs ft fp ≠ 1 ∧ Astc.simplexCase fs ft fp ≠ 6 ∧
      Astc.simplexCase fs ft fp ∈ [0, 2, 3, 4, 5, 7] := by
  unfold Astc.simplexCase
  by_cases h1 : fs > ft <;> by_cases h2 : ft > fp <;> by_cases h3 : fs > fp <;>
    simp [h1, h2, h3] <;> omega

/-- C6 counterexample: the claim says mode 0x0042 decodes to x_weights = 6 and
y_weights = 2; the code decodes x_weights = 4 and y_weights = 4. -/
theorem C6_counterexample :
    ¬((Astc.decode_block_mode_2d 0x0042).valid = true ∧
      (Astc.decode_block_mode_2d 0x0042).x_weights = 6 ∧
      (Astc.decode_block_mode_2d 0x0042).y_weights = 2 ∧
      (Astc.decode_block_mode_2d 0x0042).is_dual_plane = false ∧
      (Astc.decode_block_mode_2d 0x0042).quant_mode = 2) := by
  decide

/-- C6 (amended): mode 0x0042 decodes to a valid mode with x_weights = 4,
y_weights = 4 (not 6 and 2 as claimed), is_dual_plane = false and
quant_mode = 2. -/
theorem C6_decode_0x0042 :
    Astc.decode_block_mode_2d 0x0042 = ⟨true, 4, 4, false, 2⟩ := by
  decide

/-- C1: for every decimation table built for a supported block size, and for
every texel, the integer blend weights of the active slots sum to 16
(TEXEL_WEIGHT_SUM) and the inactive slots up to 4 hold integer weight 0. -/
theorem C1_texel_weights_sum_16 :
    (∀ tx ty wx wy, 2 ≤ wx → wx ≤ tx → tx ≤ 12 → 2 ≤ wy → wy ≤ ty → ty ≤ 12 →
      ∀ i, i < tx * ty →
        ((List.range (Astc.texel_weight_count (Astc.corners2d tx ty wx wy) i)).map
            (fun s => Astc.texel_weights_int_4t (Astc.corners2d tx ty wx wy) s i)).sum
            = Astc.TEXEL_WEIGHT_SUM ∧
          ∀ s, Astc.texel_weight_count (Astc.corners2d tx ty wx wy) i ≤ s → s < 4 →
            Astc.texel_weights_int_4t (Astc.corners2d tx ty wx wy) s i = 0) ∧
    (∀ tx ty tz wx wy wz, 2 ≤ wx → wx ≤ tx → tx ≤ 6 → 2 ≤ wy → wy ≤ ty → ty ≤ 6 →
      2 ≤ wz → wz ≤ tz → tz ≤ 6 → wx * wy * wz ≤ Astc.MAX_WEIGHTS_PER_BLOCK →
      ∀ i, i < tx * ty * tz →
        ((List.range
              (Astc.texel_weight_count (Astc.corners3d tx ty tz wx wy wz) i)).map
            (fun s =>
              Astc.texel_weights_int_4t (Astc.corners3d tx ty tz wx wy wz) s i)).sum
            = Astc.TEXEL_WEIGHT_SUM ∧
          ∀ s, Astc.texel_weight_count (Astc.corners3d tx ty tz wx wy wz) i ≤ s →
            s < 4 →
            Astc.texel_weights_int_4t (Astc.corners3d tx ty tz wx wy wz) s i = 0) := by
  constructor
  · intro tx ty wx wy _ _ _ _ _ _ i _
    exact ⟨Astc.active_int_sum _ i (Astc.corners2d_bounds tx ty wx wy (i % tx) (i / tx))
        (Astc.corners2d_sum tx ty wx wy (i % tx) (i / tx)),
      fun s hs _ => Astc.int4t_pad _ i s hs⟩
  · intro tx ty tz wx wy wz _ _ _ _ _ _ _ _ _ _ i _
    exact ⟨Astc.active_int_sum _ i
        (Astc.corners3d_bounds tx ty tz wx wy wz (i % tx) ((i / tx) % ty)
          (i / (tx * ty)))
        (Astc.corners3d_sum tx ty tz wx wy wz (i % tx) ((i / tx) % ty)
          (i / (tx * ty))),
      fun s hs _ => Astc.int4t_pad _ i s hs⟩

/-- C2: in every BSD built by init, each packed block mode round-trips
through `block_mode_packed_index` (the entry at its `mode_index` is its
packed position k), and every discarded mode id in [0, 2048) has packed
index -1.  The 2D percentile selection is abstracted by `sel`. -/
theorem C2_block_mode_packed_index_roundtrip :
    (∀ tx ty sel k, k < Astc.block_mode_count (Astc.keep_block_mode_2d tx ty sel) →
        Astc.block_mode_packed_index (Astc.keep_block_mode_2d tx ty sel)
          ((Astc.packed_block_modes (Astc.keep_block_mode_2d tx ty sel)).getD k 0)
          = k) ∧
    (∀ tx ty sel m, m < Astc.MAX_WEIGHT_MODES →
        Astc.keep_block_mode_2d tx ty sel m = false →
        Astc.block_mode_packed_index (Astc.keep_block_mode_2d tx ty sel) m = -1) ∧
    (∀ tx ty tz k, k < Astc.block_mode_count (Astc.keep_block_mode_3d tx ty tz) →
        Astc.block_mode_packed_index (Astc.keep_block_mode_3d tx ty tz)
          ((Astc.packed_block_modes (Astc.keep_block_mode_3d tx ty tz)).getD k 0)
          = k) ∧
    (∀ tx ty tz m, m < Astc.MAX_WEIGHT_MODES →
        Astc.keep_block_mode_3d tx ty tz m = false →
        Astc.block_mode_packed_index (Astc.keep_block_mode_3d tx ty tz) m = -1) :=
  ⟨fun tx ty sel k hk => Astc.packed_index_roundtrip _ k hk,
    fun tx ty sel m _ hm => by
      unfold Astc.block_mode_packed_index
      rw [hm]
      rfl,
    fun tx ty tz k hk => Astc.packed_index_roundtrip _ k hk,
    fun tx ty tz m _ hm => by
      unfold Astc.block_mode_packed_index
      rw [hm]
      rfl⟩

/-- C2 witness: the round-trip at k = 0 for the 4x4 block with every mode
selected (the decompressor path) and for the 3x3x3 block, and the -1 entry
for the discarded mode id 0 in both. -/
theorem C2_block_mode_packed_index_roundtrip_witness :
    Astc.block_mode_packed_index (Astc.keep_block_mode_2d 4 4 (fun _ => true))
        ((Astc.packed_block_modes
            (Astc.keep_block_mode_2d 4 4 (fun _ => true))).getD 0 0) = 0 ∧
    Astc.block_mode_packed_index (Astc.keep_block_mode_2d 4 4 (fun _ => true)) 0
        = -1 ∧
    Astc.block_mode_packed_index (Astc.keep_block_mode_3d 3 3 3)
        ((Astc.packed_block_modes (Astc.keep_block_mode_3d 3 3 3)).getD 0 0) = 0 ∧
    Astc.block_mode_packed_index (Astc.keep_block_mode_3d 3 3 3) 0 = -1 :=
  ⟨C2_block_mode_packed_index_roundtrip.1 4 4 (fun _ => true) 0 (by decide),
    C2_block_mode_packed_index_roundtrip.2.1 4 4 (fun _ => true) 0 (by decide)
      (by decide),
    C2_block_mode_packed_index_roundtrip.2.2.1 3 3 3 0 (by decide),
    C2_block_mode_packed_index_roundtrip.2.2.2 3 3 3 0 (by decide) (by decide)⟩

/-- C3 counterexample: the claim asks for exactly one slot k in [0,4) with
`texel_weights_4t[k][weight_texel[t][j]] == j`.  For the 4x4 block with a
2x2 weight grid, weight j = 0 and its texel t = 0 (texel 0), the single
active slot holds grid index 0 and the three zero-filled padding slots also
hold 0, so four slots match. -/
theorem C3_counterexample :
    ¬(∃ k, k < 4 ∧
        Astc.texel_weights_4t (Astc.corners2d 4 4 2 2) k
          (Astc.weight_texel (Astc.corners2d 4 4 2 2) 16 0 0) = 0 ∧
        ∀ k2, k2 < 4 →
          Astc.texel_weights_4t (Astc.corners2d 4 4 2 2) k2
            (Astc.weight_texel (Astc.corners2d 4 4 2 2) 16 0 0) = 0 → k2 = k) := by
  decide

/-- C3 (amended): restricted to the active slots k < texel_weight_count of
the texel, the match is unique: for every weight j and every of its texels t
there is exactly one active slot k with `texel_weights_4t[k][texel] == j`,
and after the slot-0 reorder `texel_weights_texel[j][t][0] == j`. -/
theorem C3_unique_active_slot_and_slot0 :
    (∀ tx ty wx wy, 2 ≤ wx → wx ≤ tx → 2 ≤ wy → wy ≤ ty → ∀ j t,
      t < Astc.weight_texel_count (Astc.corners2d tx ty wx wy) (tx * ty) j →
        (∃! k, k < Astc.texel_weight_count (Astc.corners2d tx ty wx wy)
            (Astc.weight_texel (Astc.corners2d tx ty wx wy) (tx * ty) t j) ∧
          Astc.texel_weights_4t (Astc.corners2d tx ty wx wy) k
            (Astc.weight_texel (Astc.corners2d tx ty wx wy) (tx * ty) t j) = j) ∧
        Astc.texel_weights_texel (Astc.corners2d tx ty wx wy) (tx * ty) j t 0
          = j) ∧
    (∀ tx ty tz wx wy wz, 2 ≤ wx → wx ≤ tx → 2 ≤ wy → wy ≤ ty → 2 ≤ wz →
      wz ≤ tz → ∀ j t,
      t < Astc.weight_texel_count (Astc.corners3d tx ty tz wx wy wz)
          (tx * ty * tz) j →
        (∃! k, k < Astc.texel_weight_count (Astc.corners3d tx ty tz wx wy wz)
            (Astc.weight_texel (Astc.corners3d tx ty tz wx wy wz)
              (tx * ty * tz) t j) ∧
          Astc.texel_weights_4t (Astc.corners3d tx ty tz wx wy wz) k
            (Astc.weight_texel (Astc.corners3d tx ty tz wx wy wz)
              (tx * ty * tz) t j) = j) ∧
        Astc.texel_weights_texel (Astc.corners3d tx ty tz wx wy wz)
          (tx * ty * tz) j t 0 = j) := by
  constructor
  · intro tx ty wx wy hwx _ hwy _ j t ht
    have hb : ∀ i, ∀ p ∈ Astc.corners2d tx ty wx wy i, 0 ≤ p.2 ∧ p.2 ≤ 16 :=
      fun i => Astc.corners2d_bounds tx ty wx wy (i % tx) (i / tx)
    have hsort : ∀ i,
        ((Astc.corners2d tx ty wx wy i).map Prod.fst).Pairwise (· < ·) :=
      fun i => Astc.corners2d_keys_sorted tx ty wx wy (i % tx) (i / tx) hwx
    obtain ⟨k₀, hk4, hktwc, h4, hu, hs⟩ :=
      Astc.slot_swap_structure (Astc.corners2d tx ty wx wy) (tx * ty) j t hb
        hsort (Astc.corners2d_len4 tx ty wx wy) ht
    refine ⟨⟨k₀, ⟨hktwc, h4⟩, fun y hy => hu y hy.1 hy.2⟩, ?_⟩
    simp only [Astc.texel_weights_texel]
    rw [hs]
    by_cases hk0 : k₀ = 0
    · subst hk0
      simpa using h4
    · have hne : ((k₀ : Int)) ≠ 0 := by exact_mod_cast hk0
      simp only [hne, if_false, if_pos rfl, Int.toNat_natCast]
      exact h4
  · intro tx ty tz wx wy wz hwx _ hwy _ hwz _ j t ht
    have hb : ∀ i, ∀ p ∈ Astc.corners3d tx ty tz wx wy wz i,
        0 ≤ p.2 ∧ p.2 ≤ 16 :=
      fun i => Astc.corners3d_bounds tx ty tz wx wy wz (i % tx) ((i / tx) % ty)
        (i / (tx * ty))
    have hsort : ∀ i,
        ((Astc.corners3d tx ty tz wx wy wz i).map Prod.fst).Pairwise (· < ·) :=
      fun i => Astc.corners3d_keys_sorted tx ty tz wx wy wz (i % tx)
        ((i / tx) % ty) (i / (tx * ty)) (by omega) (by omega)
    obtain ⟨k₀, hk4, hktwc, h4, hu, hs⟩ :=
      Astc.slot_swap_structure (Astc.corners3d tx ty tz wx wy wz)
        (tx * ty * tz) j t hb hsort (Astc.corners3d_len4 tx ty tz wx wy wz) ht
    refine ⟨⟨k₀, ⟨hktwc, h4⟩, fun y hy => hu y hy.1 hy.2⟩, ?_⟩
    simp only [Astc.texel_weights_texel]
    rw [hs]
    by_cases hk0 : k₀ = 0
    · subst hk0
      simpa using h4
    · have hne : ((k₀ : Int)) ≠ 0 := by exact_mod_cast hk0
      simp only [hne, if_false, if_pos rfl, Int.toNat_natCast]
      exact h4

/-- C3 witness: the amended theorem at the 4x4 block with a 2x2 grid,
weight 2, texel entry t = 1, and at the 3x3x3 block with a 2x2x2 grid,
weight 0, texel entry t = 0. -/
theorem C3_unique_active_slot_and_slot0_witness :
    ((∃! k, k < Astc.texel_weight_count (Astc.corners2d 4 4 2 2)
        (Astc.weight_texel (Astc.corners2d 4 4 2 2) 16 1 2) ∧
      Astc.texel_weights_4t (Astc.corners2d 4 4 2 2) k
        (Astc.weight_texel (Astc.corners2d 4 4 2 2) 16 1 2) = 2) ∧
      Astc.texel_weights_texel (Astc.corners2d 4 4 2 2) 16 2 1 0 = 2) ∧
    ((∃! k, k < Astc.texel_weight_count (Astc.corners3d 3 3 3 2 2 2)
        (Astc.weight_texel (Astc.corners3d 3 3 3 2 2 2) 27 0 0) ∧
      Astc.texel_weights_4t (Astc.corners3d 3 3 3 2 2 2) k
        (Astc.weight_texel (Astc.corners3d 3 3 3 2 2 2) 27 0 0) = 0) ∧
      Astc.texel_weights_texel (Astc.corners3d 3 3 3 2 2 2) 27 0 0 0 = 0) :=
  ⟨C3_unique_active_slot_and_slot0.1 4 4 2 2 (by decide) (by decide) (by decide)
      (by decide) 2 1 (by decide),
    C3_unique_active_slot_and_slot0.2 3 3 3 2 2 2 (by decide) (by decide)
      (by decide) (by decide) (by decide) (by decide) 0 0 (by decide)⟩

/-- C5: for every partition-info entry (any block dimensions, requested
partition count and seed), the stored partition_count equals the length of
the longest prefix of non-empty partitions — partitions after the first
empty one are ignored even when non-empty. -/
theorem C5_partition_count_is_prefix_length :
    ∀ xdim ydim zdim partition_count seed,
      Astc.stored_partition_count
          (Astc.partition_texel_counts xdim ydim zdim partition_count seed)
        = Astc.leadingNonemptyLen
            (Astc.partition_texel_counts xdim ydim zdim partition_count seed) :=
  fun _ _ _ _ _ => Astc.stored_eq_leading _

/-- C10: select_partition always returns a partition id strictly below the
requested partition count (for counts 1..4), and always 0 for count 1. -/
theorem C10_select_partition_lt :
    ∀ seed x y z partition_count sb, 1 ≤ partition_count → partition_count ≤ 4 →
      Astc.select_partition seed x y z partition_count sb < partition_count ∧
        (partition_count = 1 →
          Astc.select_partition seed x y z partition_count sb = 0) := by
  intro seed x y z pc sb h1 _
  exact Astc.partitionOfFour_lt _ _ _ _ pc h1 (fun h => if_pos h) (fun h => if_pos h)
    (fun h => if_pos h)

/-- C10 witness: the theorem at seed 0, origin texel, partition count 2. -/
theorem C10_select_partition_lt_witness :
    Astc.select_partition 0 0 0 0 2 false < 2 ∧
      (2 = 1 → Astc.select_partition 0 0 0 0 2 false = 0) :=
  C10_select_partition_lt 0 0 0 0 2 false (by decide) (by decide)

/-- C4: within each multi-partition table (partition counts 2, 3, 4), any
two distinct entries with equal canonical patterns leave at most one entry
with a nonzero partition_count after `remove_duplicate_partitionings`.  The
pc = 1 table is generated without a deduplication pass. -/
theorem C4_canonical_dedup :
    ∀ xdim ydim zdim partition_count i j,
      (partition_count = 2 ∨ partition_count = 3 ∨ partition_count = 4) →
      i < Astc.PARTITION_COUNT → j < Astc.PARTITION_COUNT → i ≠ j →
      Astc.canonical_words (xdim * ydim * zdim)
          (Astc.table_pot xdim ydim zdim partition_count i)
        = Astc.canonical_words (xdim * ydim * zdim)
            (Astc.table_pot xdim ydim zdim partition_count j) →
      Astc.table_final_count xdim ydim zdim partition_count i = 0 ∨
        Astc.table_final_count xdim ydim zdim partition_count j = 0 := by
  intro xd yd zd pc i j _ hi hj hne hcanon
  rcases Nat.lt_or_ge i j with hlt | hge
  · right
    unfold Astc.table_final_count Astc.dedup_partition_count
    rw [if_pos ?_]
    rw [List.any_eq_true]
    exact ⟨i, List.mem_range.mpr hlt, by simp [hcanon]⟩
  · have hlt : j < i := by omega
    left
    unfold Astc.table_final_count Astc.dedup_partition_count
    rw [if_pos ?_]
    rw [List.any_eq_true]
    exact ⟨j, List.mem_range.mpr hlt, by simp [hcanon]⟩

/-- C4 witness: on the 4x4 block the pc = 2 seeds 0 and 6 both assign every
texel to partition 0, so their canonical patterns coincide and the later
entry is invalidated. -/
theorem C4_canonical_dedup_witness :
    Astc.table_final_count 4 4 1 2 6 = 0 ∨ Astc.table_final_count 4 4 1 2 0 = 0 :=
  C4_canonical_dedup 4 4 1 2 6 0 (Or.inl rfl) (by decide) (by decide) (by decide)
    (by decide)

/-- C9: for every supported decimation table, every weight grid point
receives at least one texel with a nonzero blend weight
(`weight_texel_count[j] >= 1`), so the tail-padding reads
`weight_texel[texel_count_wt - 1][...]` index a real entry. -/
theorem C9_weight_texel_count_pos :
    (∀ tx ty wx wy, 2 ≤ wx → wx ≤ tx → tx ≤ 12 → 2 ≤ wy → wy ≤ ty → ty ≤ 12 →
      ∀ j, j < wx * wy →
        1 ≤ Astc.weight_texel_count (Astc.corners2d tx ty wx wy) (tx * ty) j) ∧
    (∀ tx ty tz wx wy wz, 2 ≤ wx → wx ≤ tx → tx ≤ 6 → 2 ≤ wy → wy ≤ ty →
      ty ≤ 6 → 2 ≤ wz → wz ≤ tz → tz ≤ 6 →
      wx * wy * wz ≤ Astc.MAX_WEIGHTS_PER_BLOCK →
      ∀ j, j < wx * wy * wz →
        1 ≤ Astc.weight_texel_count (Astc.corners3d tx ty tz wx wy wz)
              (tx * ty * tz) j) :=
  ⟨fun tx ty wx wy h1 h2 h3 h4 h5 h6 j hj =>
      Astc.cover2d tx ty wx wy h1 h2 h3 h4 h5 h6 j hj,
    fun tx ty tz wx wy wz h1 h2 h3 h4 h5 h6 h7 h8 h9 _ j hj =>
      Astc.cover3d tx ty tz wx wy wz h1 h2 h3 h4 h5 h6 h7 h8 h9 j hj⟩

/-- C9 witness: the theorem applied to the 4x4 block with a 2x2 grid at
weight 3, and the 3x3x3 block with a 2x2x2 grid at weight 7. -/
theorem C9_weight_texel_count_pos_witness :
    1 ≤ Astc.weight_texel_count (Astc.corners2d 4 4 2 2) 16 3 ∧
    1 ≤ Astc.weight_texel_count (Astc.corners3d 3 3 3 2 2 2) 27 7 :=
  ⟨C9_weight_texel_count_pos.1 4 4 2 2 (by decide) (by decide) (by decide)
      (by decide) (by decide) (by decide) 3 (by decide),
    C9_weight_texel_count_pos.2 3 3 3 2 2 2 (by decide) (by decide) (by decide)
      (by decide) (by decide) (by decide) (by decide) (by decide) (by decide)
      (by decide) 7 (by decide)⟩

/-- C8 counterexample: the claim says slots 1..3 of the reordered contributor
list keep the pre-reorder relative order of the three non-identity
contributors.  For the 4x4 block with a 2x2 grid, weight j = 2 and its texel
entry t = 1 (texel 5, pre-reorder slots [0,1,2,3], identity at slot 2), the
swap produces slots 1..3 = [1,0,3] while the pre-order with the identity
removed is [0,1,3]. -/
theorem C8_counterexample :
    ¬([Astc.texel_weights_texel (Astc.corners2d 4 4 2 2) 16 2 1 1,
        Astc.texel_weights_texel (Astc.corners2d 4 4 2 2) 16 2 1 2,
        Astc.texel_weights_texel (Astc.corners2d 4 4 2 2) 16 2 1 3]
      = List.eraseIdx
          [Astc.texel_weights_4t (Astc.corners2d 4 4 2 2) 0
              (Astc.weight_texel (Astc.corners2d 4 4 2 2) 16 1 2),
            Astc.texel_weights_4t (Astc.corners2d 4 4 2 2) 1
              (Astc.weight_texel (Astc.corners2d 4 4 2 2) 16 1 2),
            Astc.texel_weights_4t (Astc.corners2d 4 4 2 2) 2
              (Astc.weight_texel (Astc.corners2d 4 4 2 2) 16 1 2),
            Astc.texel_weights_4t (Astc.corners2d 4 4 2 2) 3
              (Astc.weight_texel (Astc.corners2d 4 4 2 2) 16 1 2)]
          (Astc.swapIndex (Astc.corners2d 4 4 2 2) 2
            (Astc.weight_texel (Astc.corners2d 4 4 2 2) 16 1 2)).toNat) := by
  decide

/-- C8 (amended): the reorder is the transposition of slot 0 with the
identity slot, not an order-preserving rotation: slot 0 receives the unique
identity contributor k₀, slot k₀ receives the old slot-0 entry when k₀ is
not 0, and every other slot is unchanged. -/
theorem C8_swap_is_transposition :
    (∀ tx ty wx wy, 2 ≤ wx → wx ≤ tx → 2 ≤ wy → wy ≤ ty → ∀ j t,
      t < Astc.weight_texel_count (Astc.corners2d tx ty wx wy) (tx * ty) j →
      ∃ k₀ : Nat, k₀ < 4 ∧
        Astc.swapIndex (Astc.corners2d tx ty wx wy) j
          (Astc.weight_texel (Astc.corners2d tx ty wx wy) (tx * ty) t j)
          = (k₀ : Int) ∧
        Astc.texel_weights_4t (Astc.corners2d tx ty wx wy) k₀
          (Astc.weight_texel (Astc.corners2d tx ty wx wy) (tx * ty) t j) = j ∧
        Astc.texel_weights_texel (Astc.corners2d tx ty wx wy) (tx * ty) j t 0
          = j ∧
        (k₀ ≠ 0 →
          Astc.texel_weights_texel (Astc.corners2d tx ty wx wy) (tx * ty) j t k₀
            = Astc.texel_weights_4t (Astc.corners2d tx ty wx wy) 0
                (Astc.weight_texel (Astc.corners2d tx ty wx wy) (tx * ty) t j)) ∧
        (∀ k, k < 4 → k ≠ 0 → k ≠ k₀ →
          Astc.texel_weights_texel (Astc.corners2d tx ty wx wy) (tx * ty) j t k
            = Astc.texel_weights_4t (Astc.corners2d tx ty wx wy) k
                (Astc.weight_texel (Astc.corners2d tx ty wx wy) (tx * ty) t j))) ∧
    (∀ tx ty tz wx wy wz, 2 ≤ wx → wx ≤ tx → 2 ≤ wy → wy ≤ ty → 2 ≤ wz →
      wz ≤ tz → ∀ j t,
      t < Astc.weight_texel_count (Astc.corners3d tx ty tz wx wy wz)
          (tx * ty * tz) j →
      ∃ k₀ : Nat, k₀ < 4 ∧
        Astc.swapIndex (Astc.corners3d tx ty tz wx wy wz) j
          (Astc.weight_texel (Astc.corners3d tx ty tz wx wy wz)
            (tx * ty * tz) t j) = (k₀ : Int) ∧
        Astc.texel_weights_4t (Astc.corners3d tx ty tz wx wy wz) k₀
          (Astc.weight_texel (Astc.corners3d tx ty tz wx wy wz)
            (tx * ty * tz) t j) = j ∧
        Astc.texel_weights_texel (Astc.corners3d tx ty tz wx wy wz)
          (tx * ty * tz) j t 0 = j ∧
        (k₀ ≠ 0 →
          Astc.texel_weights_texel (Astc.corners3d tx ty tz wx wy wz)
              (tx * ty * tz) j t k₀
            = Astc.texel_weights_4t (Astc.corners3d tx ty tz wx wy wz) 0
                (Astc.weight_texel (Astc.corners3d tx ty tz wx wy wz)
                  (tx * ty * tz) t j)) ∧
        (∀ k, k < 4 → k ≠ 0 → k ≠ k₀ →
          Astc.texel_weights_texel (Astc.corners3d tx ty tz wx wy wz)
              (tx * ty * tz) j t k
            = Astc.texel_weights_4t (Astc.corners3d tx ty tz wx wy wz) k
                (Astc.weight_texel (Astc.corners3d tx ty tz wx wy wz)
                  (tx * ty * tz) t j))) := by
  constructor
  · intro tx ty wx wy hwx _ hwy _ j t ht
    have hb : ∀ i, ∀ p ∈ Astc.corners2d tx ty wx wy i, 0 ≤ p.2 ∧ p.2 ≤ 16 :=
      fun i => Astc.corners2d_bounds tx ty wx wy (i % tx) (i / tx)
    have hsort : ∀ i,
        ((Astc.corners2d tx ty wx wy i).map Prod.fst).Pairwise (· < ·) :=
      fun i => Astc.corners2d_keys_sorted tx ty wx wy (i % tx) (i / tx) hwx
    obtain ⟨k₀, hk4, hktwc, h4, hu, hs⟩ :=
      Astc.slot_swap_structure (Astc.corners2d tx ty wx wy) (tx * ty) j t hb
        hsort (Astc.corners2d_len4 tx ty wx wy) ht
    refine ⟨k₀, hk4, hs, h4, ?_, ?_, ?_⟩
    · simp only [Astc.texel_weights_texel]
      rw [hs]
      by_cases hk0 : k₀ = 0
      · subst hk0
        simpa using h4
      · have hne : ((k₀ : Int)) ≠ 0 := by exact_mod_cast hk0
        simp only [hne, if_false, if_pos rfl, Int.toNat_natCast]
        exact h4
    · intro hk0
      have hne : ((k₀ : Int)) ≠ 0 := by exact_mod_cast hk0
      simp only [Astc.texel_weights_texel]
      rw [hs]
      simp [hne, hk0]
    · intro k _ hkne0 hknek
      simp only [Astc.texel_weights_texel]
      rw [hs]
      have hne2 : ((k : Int)) ≠ (k₀ : Int) := by exact_mod_cast hknek
      by_cases hk0 : k₀ = 0
      · subst hk0
        simp
      · have hne : ((k₀ : Int)) ≠ 0 := by exact_mod_cast hk0
        simp only [hne, if_false, hkne0, hne2]
  · intro tx ty tz wx wy wz hwx _ hwy _ hwz _ j t ht
    have hb : ∀ i, ∀ p ∈ Astc.corners3d tx ty tz wx wy wz i,
        0 ≤ p.2 ∧ p.2 ≤ 16 :=
      fun i => Astc.corners3d_bounds tx ty tz wx wy wz (i % tx) ((i / tx) % ty)
        (i / (tx * ty))
    have hsort : ∀ i,
        ((Astc.corners3d tx ty tz wx wy wz i).map Prod.fst).Pairwise (· < ·) :=
      fun i => Astc.corners3d_keys_sorted tx ty tz wx wy wz (i % tx)
        ((i / tx) % ty) (i / (tx * ty)) (by omega) (by omega)
    obtain ⟨k₀, hk4, hktwc, h4, hu, hs⟩ :=
      Astc.slot_swap_structure (Astc.corners3d tx ty tz wx wy wz)
        (tx * ty * tz) j t hb hsort (Astc.corners3d_len4 tx ty tz wx wy wz) ht
    refine ⟨k₀, hk4, hs, h4, ?_, ?_, ?_⟩
    · simp only [Astc.texel_weights_texel]
      rw [hs]
      by_cases hk0 : k₀ = 0
      · subst hk0
        simpa using h4
      · have hne : ((k₀ : Int)) ≠ 0 := by exact_mod_cast hk0
        simp only [hne, if_false, if_pos rfl, Int.toNat_natCast]
        exact h4
    · intro hk0
      have hne : ((k₀ : Int)) ≠ 0 := by exact_mod_cast hk0
      simp only [Astc.texel_weights_texel]
      rw [hs]
      simp [hne, hk0]
    · intro k _ hkne0 hknek
      simp only [Astc.texel_weights_texel]
      rw [hs]
      have hne2 : ((k : Int)) ≠ (k₀ : Int) := by exact_mod_cast hknek
      by_cases hk0 : k₀ = 0
      · subst hk0
        simp
      · have hne : ((k₀ : Int)) ≠ 0 := by exact_mod_cast hk0
        simp only [hne, if_false, hkne0, hne2]

/-- C8 witness: the amended theorem at the 4x4 block with a 2x2 grid,
weight 0, texel entry t = 2, and the 3x3x3 block with a 2x2x2 grid,
weight 1, texel entry t = 0. -/
theorem C8_swap_is_transposition_witness :
    (∃ k₀ : Nat, k₀ < 4 ∧
      Astc.swapIndex (Astc.corners2d 4 4 2 2) 0
          (Astc.weight_texel (Astc.corners2d 4 4 2 2) 16 2 0) = (k₀ : Int) ∧
      Astc.texel_weights_4t (Astc.corners2d 4 4 2 2) k₀
          (Astc.weight_texel (Astc.corners2d 4 4 2 2) 16 2 0) = 0 ∧
      Astc.texel_weights_texel (Astc.corners2d 4 4 2 2) 16 0 2 0 = 0 ∧
      (k₀ ≠ 0 →
        Astc.texel_weights_texel (Astc.corners2d 4 4 2 2) 16 0 2 k₀
          = Astc.texel_weights_4t (Astc.corners2d 4 4 2 2) 0
              (Astc.weight_texel (Astc.corners2d 4 4 2 2) 16 2 0)) ∧
      (∀ k, k < 4 → k ≠ 0 → k ≠ k₀ →
        Astc.texel_weights_texel (Astc.corners2d 4 4 2 2) 16 0 2 k
          = Astc.texel_weights_4t (Astc.corners2d 4 4 2 2) k
              (Astc.weight_texel (Astc.corners2d 4 4 2 2) 16 2 0))) ∧
    (∃ k₀ : Nat, k₀ < 4 ∧
      Astc.swapIndex (Astc.corners3d 3 3 3 2 2 2) 1
          (Astc.weight_texel (Astc.corners3d 3 3 3 2 2 2) 27 0 1) = (k₀ : Int) ∧
      Astc.texel_weights_4t (Astc.corners3d 3 3 3 2 2 2) k₀
          (Astc.weight_texel (Astc.corners3d 3 3 3 2 2 2) 27 0 1) = 1 ∧
      Astc.texel_weights_texel (Astc.corners3d 3 3 3 2 2 2) 27 1 0 0 = 1 ∧
      (k₀ ≠ 0 →
        Astc.texel_weights_texel (Astc.corners3d 3 3 3 2 2 2) 27 1 0 k₀
          = Astc.texel_weights_4t (Astc.corners3d 3 3 3 2 2 2) 0
              (Astc.weight_texel (Astc.corners3d 3 3 3 2 2 2) 27 0 1)) ∧
      (∀ k, k < 4 → k ≠ 0 → k ≠ k₀ →
        Astc.texel_weights_texel (Astc.corners3d 3 3 3 2 2 2) 27 1 0 k
          = Astc.texel_weights_4t (Astc.corners3d 3 3 3 2 2 2) k
              (Astc.weight_texel (Astc.corners3d 3 3 3 2 2 2) 27 0 1))) :=
  ⟨C8_swap_is_transposition.1 4 4 2 2 (by decide) (by decide) (by decide)
      (by decide) 0 2 (by decide),
    C8_swap_is_transposition.2 3 3 3 2 2 2 (by decide) (by decide) (by decide)
      (by decide) (by decide) (by decide) 1 0 (by decide)⟩

/-- C1 witness: the theorem applied to the 4x4 block with a 2x2 weight grid
(texel 0) and the 3x3x3 block with a 2x2x2 weight grid (texel 0). -/
theorem C1_texel_weights_sum_16_witness :
    (((List.range (Astc.texel_weight_count (Astc.corners2d 4 4 2 2) 0)).map
        (fun s => Astc.texel_weights_int_4t (Astc.corners2d 4 4 2 2) s 0)).sum
        = Astc.TEXEL_WEIGHT_SUM ∧
      ∀ s, Astc.texel_weight_count (Astc.corners2d 4 4 2 2) 0 ≤ s → s < 4 →
        Astc.texel_weights_int_4t (Astc.corners2d 4 4 2 2) s 0 = 0) ∧
    (((List.range (Astc.texel_weight_count (Astc.corners3d 3 3 3 2 2 2) 0)).map
        (fun s => Astc.texel_weights_int_4t (Astc.corners3d 3 3 3 2 2 2) s 0)).sum
        = Astc.TEXEL_WEIGHT_SUM ∧
      ∀ s, Astc.texel_weight_count (Astc.corners3d 3 3 3 2 2 2) 0 ≤ s → s < 4 →
        Astc.texel_weights_int_4t (Astc.corners3d 3 3 3 2 2 2) s 0 = 0) :=
  ⟨C1_texel_weights_sum_16.1 4 4 2 2 (by decide) (by decide) (by decide) (by decide)
      (by decide) (by decide) 0 (by decide),
    C1_texel_weights_sum_16.2 3 3 3 2 2 2 (by decide) (by decide) (by decide)
      (by decide) (by decide) (by decide) (by decide) (by decide) (by decide)
      (by decide) 0 (by decide)⟩
